import Mathlib

/-!
# slack8s: event filtering and notification formatting

A shallow embedding of `src/main.go` (DailyHotel/slack8s) and the properties of its
event classifier (`filter_event` and the gates in the loop of `main`) and of its
notification formatter (`custom_deploy_attachment`, `general_attachment`,
`send_message`).

Modelling conventions.

* A Go `string` is a finite sequence of bytes; it is modelled as `List Char`.  Every
  string operation the program uses (`==`, `len(s) > 0`, `strings.Contains`,
  `strings.Split` on `","`, `strings.HasPrefix`, `strings.TrimPrefix`) works element by
  element, so the results proved here do not depend on the alphabet.
* The environment variables read with `os.Getenv` are an explicit `Env` argument.
* `time.Time` instants are integers counting nanoseconds from a fixed origin;
  `time.Duration` is an `Int` number of nanoseconds kept inside the int64 range by the
  saturating `Time.Sub`.
* Go `int` (`Event.Count`, `diffMinutes`) is `Int`.
* `int(diff.Minutes())` is computed as the program computes it, in float64 arithmetic
  (`roundFloat64`, `Duration.MinutesFloat64`, `truncToInt`): exact rational results
  rounded to the nearest float64 value, ties to even.  `Duration.wholeMinutes` is the
  exact truncation toward zero the specification speaks of; the two agree below `2 ^ 18`
  minutes and can differ by one from there on.
* The part of `main` that can be modelled as a function is the body of its loop between
  decoding an event and calling `send_message`: `main_decision`.
-/

namespace Slack8s

/-- A Go string. -/
abbrev GoString := List Char

/-! ## The `strings` and `time` library functions used by the program -/

/-- Go `strings.HasPrefix(s, pre)`:
`len(s) >= len(pre) && s[:len(pre)] == pre`. -/
def HasPrefix (s pre : GoString) : Bool :=
  decide (pre.length ≤ s.length) && (s.take pre.length == pre)

/-- Go `strings.TrimPrefix(s, pre)`: `s[len(pre):]` when `s` starts with `pre`, otherwise
`s` itself. -/
def TrimPrefix (s pre : GoString) : GoString :=
  if HasPrefix s pre then s.drop pre.length else s

/-- Go `strings.Contains(s, substr)`, that is `strings.Index(s, substr) >= 0`: some
position of `s` (the end included) starts an occurrence of `substr`. -/
def Contains : GoString → GoString → Bool
  | [], substr => HasPrefix [] substr
  | c :: s, substr => HasPrefix (c :: s) substr || Contains s substr

/-- Go `strings.Split(s, sep)` for a separator of one byte, the only way the program
calls it (`sep = ","`): the pieces of `s` between the occurrences of `sep`.  A string
without `sep` gives the one piece `s`; the empty string gives one empty piece. -/
def SplitByte (sep : Char) : GoString → List GoString
  | [] => [[]]
  | c :: s =>
    if c = sep then [] :: SplitByte sep s
    else
      match SplitByte sep s with
      | [] => [[c]]
      | piece :: pieces => (c :: piece) :: pieces

/-- Go `strings.Split(s, ",")`. -/
def Split (s : GoString) : List GoString := SplitByte ',' s

/-- The largest `time.Duration`: `1<<63 - 1` nanoseconds. -/
def maxDuration : Int := 2 ^ 63 - 1

/-- The smallest `time.Duration`: `-1 << 63` nanoseconds. -/
def minDuration : Int := -(2 ^ 63)

/-- Go `t.Sub(u)`: the duration `t - u` in nanoseconds; when it does not fit a
`time.Duration` the maximum (or minimum) duration is returned. -/
def Time.Sub (t u : Int) : Int :=
  if t - u > maxDuration then maxDuration
  else if t - u < minDuration then minDuration
  else t - u

/-- The constant `time.Minute`, in nanoseconds. -/
def Minute : Int := 60 * 1000000000

/-- A duration truncated toward zero to whole minutes, in exact arithmetic: the age in
minutes as the specification describes it.  The program computes `int(d.Minutes())` in
float64 (`Duration.MinutesFloat64` and `truncToInt` below), which gives this value for
durations below `2 ^ 18` minutes in absolute value. -/
def Duration.wholeMinutes (d : Int) : Int := Int.tdiv d Minute

/-! ## float64 arithmetic: `Duration.Minutes` and the conversion to `int` -/

/-- The integer nearest to `w`, the even one of the two when `w` lies half way. -/
def roundHalfEven (w : ℚ) : Int :=
  if w - ⌊w⌋ < 1 / 2 then ⌊w⌋
  else if 1 / 2 < w - ⌊w⌋ then ⌊w⌋ + 1
  else if ⌊w⌋ % 2 = 0 then ⌊w⌋ else ⌊w⌋ + 1

/-- The float64 value of an exact result `x` (IEEE 754 binary64, round to nearest, ties
to even): with `e` the binary exponent of `x` (`2 ^ e ≤ |x| < 2 ^ (e + 1)`), the multiple
of `2 ^ (e - 52)` nearest to `x`, that is a significand of 53 bits.  This is the rounding
of the normal numbers; every value the program rounds (whole minutes, nanoseconds below a
minute, the constant `60 * 1e9`, their quotient and the sum) is zero or lies between
`2 ^ (-36)` and `2 ^ 36` in absolute value, so that neither subnormal numbers nor
overflow occur. -/
def roundFloat64 (x : ℚ) : ℚ :=
  if x = 0 then 0
  else roundHalfEven (x / 2 ^ (Int.log 2 |x| - 52)) * 2 ^ (Int.log 2 |x| - 52)

/-- Go `d.Minutes()`: `min := d / Minute; nsec := d % Minute;
return float64(min) + float64(nsec)/(60*1e9)`, with Go's `/` and `%` on integers
(truncating toward zero) and every conversion and float64 operation rounded. -/
def Duration.MinutesFloat64 (d : Int) : ℚ :=
  let min := Int.tdiv d Minute
  let nsec := Int.tmod d Minute
  roundFloat64 (roundFloat64 min +
    roundFloat64 (roundFloat64 nsec / roundFloat64 (60 * 1000000000)))

/-- Go `int(x)` for a float64 `x` within the range of `int`: the fraction is discarded
(truncation toward zero). -/
def truncToInt (x : ℚ) : Int := if 0 ≤ x then ⌊x⌋ else ⌈x⌉

/-! ## The data model (`src/main.go`, lines 20-49) -/

/-- Go `EventMetadata`. -/
structure EventMetadata where
  Name : GoString
  Namespace : GoString
  deriving DecidableEq, Repr

/-- Go `EventSource`. -/
structure EventSource where
  Component : GoString
  deriving DecidableEq, Repr

/-- Go `EventInvolvedObject`. -/
structure EventInvolvedObject where
  Kind : GoString
  deriving DecidableEq, Repr

/-- Go `Event`. -/
structure Event where
  Source : EventSource
  InvolvedObject : EventInvolvedObject
  Metadata : EventMetadata
  Reason : GoString
  Message : GoString
  FirstTimestamp : Int
  LastTimestamp : Int
  Count : Int
  deriving DecidableEq, Repr

/-- The environment variables the classifier reads: `os.Getenv("EVENT_REASON")` and
`os.Getenv("POD_NAMES")` (an unset variable reads as the empty string). -/
structure Env where
  EVENT_REASON : GoString
  POD_NAMES : GoString
  deriving DecidableEq, Repr

/-- The fields of `slack.AttachmentField` the program sets (`Short` is `false` when not
set). -/
structure AttachmentField where
  Title : GoString
  Value : GoString
  Short : Bool
  deriving DecidableEq, Repr

/-- The fields of `slack.Attachment` the program sets (`Color` is `""` when not set). -/
structure Attachment where
  Color : GoString
  Fallback : GoString
  Fields : List AttachmentField
  deriving DecidableEq, Repr

/-! ## The event classifier -/

/-- The loop `for _, name := range names` of `filter_event` (lines 67-74), started with
the current value of `complete`: the first pattern contained in `metadataName` returns
`true`; every other pattern sets `complete = false`; after the loop `complete` is
returned (line 77). -/
def filter_event_loop (metadataName : GoString) : List GoString → Bool → Bool
  | [], complete => complete
  | name :: names, _ =>
    if Contains metadataName name then true
    else filter_event_loop metadataName names false

/-- Go `filter_event(metadataName, eventReason)` (lines 51-78). -/
def filter_event (env : Env) (metadataName eventReason : GoString) : Bool :=
  let reason := env.EVENT_REASON
  let pods := env.POD_NAMES
  let complete := false
  if eventReason = reason then
    let complete := true
    if pods.length > 0 then
      filter_event_loop metadataName (Split pods) complete
    else complete
  else complete

/-- The value of `diffMinutes` (lines 226-227):
`int(time.Now().Sub(e.LastTimestamp).Minutes())`, `now` being the instant returned by
`time.Now()`. -/
def diffMinutes (now : Int) (e : Event) : Int :=
  truncToInt (Duration.MinutesFloat64 (Time.Sub now e.LastTimestamp))

/-- The body of the loop of `main` from `send := false` to the last assignment of `send`
(lines 209-231): the pair `(send, color)` with which line 235 decides whether to call
`send_message(e, color)`. -/
def main_decision (env : Env) (now : Int) (e : Event) : Bool × GoString :=
  let send := false
  let color : GoString := "".toList
  let (send, color) :=
    if filter_event env e.Metadata.Name e.Reason then (true, "good".toList) else (send, color)
  let send := if e.Count > 1 then false else send
  let send :=
    if diffMinutes now e > 1 ∧ ¬ (Contains e.Message "killed".toList = true) then false
    else send
  (send, color)

/-! ## The notification formatter -/

/-- Go `custom_deploy_attachment(e)` (lines 80-99). -/
def custom_deploy_attachment (e : Event) : Attachment :=
  let imageTag := TrimPrefix e.Message "Successfully pulled image ".toList
  { Color := "".toList
    Fallback := e.Message
    Fields := [
      { Title := "Pod-Name".toList, Value := e.Metadata.Name, Short := false },
      { Title := "Deployed-Image-Tag".toList, Value := imageTag, Short := false } ] }

/-- Go `general_attachment(e)` (lines 101-139). -/
def general_attachment (e : Event) : Attachment :=
  { Color := "".toList
    Fallback := e.Message
    Fields := [
      { Title := "Namespace".toList, Value := e.Metadata.Namespace, Short := true },
      { Title := "Message".toList, Value := e.Message, Short := false },
      { Title := "Object".toList, Value := e.InvolvedObject.Kind, Short := true },
      { Title := "Name".toList, Value := e.Metadata.Name, Short := true },
      { Title := "Reason".toList, Value := e.Reason, Short := true },
      { Title := "Component".toList, Value := e.Source.Component, Short := true } ] }

/-- The attachment `send_message(e, color)` builds and posts (lines 146-157): the custom
deployment attachment with its colour resolved. -/
def send_message_attachment (e : Event) (color : GoString) : Attachment :=
  let attachment := custom_deploy_attachment e
  if color ≠ "".toList then { attachment with Color := color }
  else if HasPrefix e.Reason "Success".toList then { attachment with Color := "good".toList }
  else if HasPrefix e.Reason "Fail".toList then { attachment with Color := "danger".toList }
  else attachment

/-- The end of the loop body of `main` (lines 235-240): when `send` is true the driver
calls `send_message(e, color)` with the colour of lines 210-215; the result is the
attachment that call posts, or `none` when nothing is sent. -/
def main_delivery (env : Env) (now : Int) (e : Event) : Option Attachment :=
  let (send, color) := main_decision env now e
  if send then some (send_message_attachment e color) else none

/-! ## The test `diffMinutes > 1` under any rounding

The definitions below follow the computation of `Duration.MinutesFloat64` with a rounding
function about which only monotonicity and exactness on float64 values is assumed;
`roundFloat64` is one (`roundFloat64_mono`, `roundFloat64_exact`).
`diffMinutes_gate_float64` shows that the test `diffMinutes > 1`, the only use the
classifier makes of the value, has the same outcome under every such rounding. -/

/-- A rounding of exact results to float64 values, as far as the program depends on it:
it is monotone, and exact on `m / 2 ^ k` for `|m| ≤ 2 ^ 53` and `k ≤ 1074`, which are
float64 values. -/
structure Float64Rounding where
  round : ℚ → ℚ
  mono : ∀ x y : ℚ, x ≤ y → round x ≤ round y
  exact : ∀ (m : Int) (k : Nat), |m| ≤ 2 ^ 53 → k ≤ 1074 → round (m / 2 ^ k) = m / 2 ^ k

/-- Go `d.Minutes()` under the rounding `R`: `min := d / Minute; nsec := d % Minute;
return float64(min) + float64(nsec)/(60*1e9)`, every conversion and operation rounded. -/
def Duration.Minutes (R : Float64Rounding) (d : Int) : ℚ :=
  let min := Int.tdiv d Minute
  let nsec := Int.tmod d Minute
  R.round (R.round min + R.round (R.round nsec / R.round (60 * 1000000000)))

/-- The rounding that rounds nothing. -/
def exactRounding : Float64Rounding :=
  { round := fun x => x, mono := fun _ _ h => h, exact := fun _ _ _ _ => rfl }

/-! ## Observations and sample inputs used in the statements below -/

/-- The value of the first field of an attachment with the given title, if any. -/
def Attachment.fieldValue (a : Attachment) (title : GoString) : Option GoString :=
  (a.Fields.find? (fun f => f.Title == title)).map (fun f => f.Value)

/-- The elapsed time `now - e.LastTimestamp` in nanoseconds, as an exact integer (before
`Time.Sub` fits it into a `time.Duration`). -/
def elapsed (now : Int) (e : Event) : Int := now - e.LastTimestamp

/-- One second, in nanoseconds (`time.Second`). -/
def Second : Int := 1000000000

/-- A sample event: a pod event with the given name, reason, message, last timestamp and
count. -/
def sampleEvent (name reason message : String) (last count : Int) : Event :=
  { Source := { Component := "kubelet".toList }
    InvolvedObject := { Kind := "Pod".toList }
    Metadata := { Name := name.toList, Namespace := "default".toList }
    Reason := reason.toList
    Message := message.toList
    FirstTimestamp := last
    LastTimestamp := last
    Count := count }

/-- A sample environment: `EVENT_REASON="Successfully assigned"` and the given
`POD_NAMES`. -/
def sampleEnv (pods : String) : Env :=
  { EVENT_REASON := "Successfully assigned".toList, POD_NAMES := pods.toList }

/-! ## Lemmas on the library functions -/

/-- `HasPrefix s pre` holds exactly when `s = pre ++ t` for some `t`. -/
theorem HasPrefix_iff (s pre : GoString) : HasPrefix s pre = true ↔ pre <+: s := by
  unfold HasPrefix
  rw [Bool.and_eq_true, decide_eq_true_eq, beq_iff_eq]
  constructor
  · rintro ⟨_, h⟩
    rw [← h]
    exact List.take_prefix _ _
  · intro h
    exact ⟨h.length_le, List.prefix_iff_eq_take.mp h |>.symm⟩

/-- `Contains s substr` holds exactly when `s = a ++ substr ++ b` for some `a`, `b`. -/
theorem Contains_iff (s substr : GoString) : Contains s substr = true ↔ substr <:+: s := by
  induction s with
  | nil =>
    rw [Contains, HasPrefix_iff]
    constructor
    · intro h; exact h.isInfix
    · intro h
      have : substr = [] := List.eq_nil_of_infix_nil h
      subst this; exact List.prefix_refl _
  | cons c s ih =>
    rw [Contains, Bool.or_eq_true, HasPrefix_iff, ih, List.infix_cons_iff]

/-- `strings.Split` never returns an empty slice. -/
theorem SplitByte_ne_nil (sep : Char) (s : GoString) : SplitByte sep s ≠ [] := by
  induction s with
  | nil => simp [SplitByte]
  | cons c s ih =>
    rw [SplitByte]
    split
    · simp
    · split <;> simp

/-- `SplitByte` is the library's `List.splitOn`. -/
theorem SplitByte_eq_splitOn (sep : Char) (s : GoString) :
    SplitByte sep s = s.splitOn sep := by
  induction s with
  | nil => rfl
  | cons c s ih =>
    rw [SplitByte, List.splitOn, List.splitOnP_cons, ← List.splitOn, ← ih]
    by_cases h : c = sep
    · simp [h]
    · have hb : (c == sep) = false := by simpa using h
      rw [if_neg h, hb]
      cases hs : SplitByte sep s with
      | nil => exact absurd hs (SplitByte_ne_nil sep s)
      | cons piece pieces => simp

/-- Joining the pieces of `Split s` with commas gives `s` back. -/
theorem intercalate_Split (s : GoString) : [','].intercalate (Split s) = s := by
  unfold Split
  rw [SplitByte_eq_splitOn]
  exact List.intercalate_splitOn s ','

/-- `TrimPrefix` removes a leading `pre` once. -/
theorem TrimPrefix_append (pre s : GoString) : TrimPrefix (pre ++ s) pre = s := by
  unfold TrimPrefix
  rw [if_pos ((HasPrefix_iff _ _).mpr (List.prefix_append _ _)), List.drop_left]

/-- `TrimPrefix` leaves a string that does not start with `pre` unchanged. -/
theorem TrimPrefix_of_not_HasPrefix (s pre : GoString) (h : ¬ pre <+: s) :
    TrimPrefix s pre = s := by
  unfold TrimPrefix
  rw [if_neg (fun hp => h ((HasPrefix_iff _ _).mp hp))]

/-! ## Lemmas on durations and whole minutes -/

/-- Saturation does not change the comparison of a duration with a bound inside the
range of durations. -/
theorem Time.Sub_ge_iff (t u k : Int) (hlo : minDuration < k) (hhi : k ≤ maxDuration) :
    k ≤ Time.Sub t u ↔ k ≤ t - u := by
  unfold Time.Sub
  split_ifs with h1 h2 <;> constructor <;> intro h <;> omega

/-- `Time.Sub` is the exact difference when it fits a duration. -/
theorem Time.Sub_of_fits (t u : Int) (hlo : minDuration ≤ t - u) (hhi : t - u ≤ maxDuration) :
    Time.Sub t u = t - u := by
  unfold Time.Sub
  rw [if_neg (by omega), if_neg (by omega)]

/-- `Time.Sub` returns a duration. -/
theorem Time.Sub_range (t u : Int) :
    minDuration ≤ Time.Sub t u ∧ Time.Sub t u ≤ maxDuration := by
  unfold Time.Sub minDuration maxDuration
  split_ifs <;> omega

/-- Whole minutes of a non-negative duration: the floor of the quotient. -/
theorem wholeMinutes_of_nonneg (d : Int) (hd : 0 ≤ d) :
    Duration.wholeMinutes d = d / Minute :=
  Int.tdiv_eq_ediv hd (by unfold Minute; omega)

/-- Whole minutes of a non-positive duration: minus the whole minutes of its opposite. -/
theorem wholeMinutes_of_nonpos (d : Int) (hd : d ≤ 0) :
    Duration.wholeMinutes d = -((-d) / Minute) := by
  unfold Duration.wholeMinutes
  have h := Int.neg_tdiv (-d) Minute
  rw [neg_neg] at h
  rw [h, Int.tdiv_eq_ediv (by omega) (by unfold Minute; omega)]

/-- More than one whole minute means at least two minutes. -/
theorem wholeMinutes_gt_one_iff (d : Int) : Duration.wholeMinutes d > 1 ↔ 2 * Minute ≤ d := by
  rcases le_total 0 d with hd | hd
  · rw [wholeMinutes_of_nonneg d hd]
    unfold Minute
    omega
  · rw [wholeMinutes_of_nonpos d hd]
    unfold Minute
    omega

/-- Truncation toward zero, non-negative durations. -/
theorem wholeMinutes_trunc_nonneg (d : Int) (hd : 0 ≤ d) :
    0 ≤ Duration.wholeMinutes d ∧ Duration.wholeMinutes d * Minute ≤ d ∧
      d < (Duration.wholeMinutes d + 1) * Minute := by
  rw [wholeMinutes_of_nonneg d hd]
  unfold Minute
  omega

/-- Truncation toward zero, non-positive durations. -/
theorem wholeMinutes_trunc_nonpos (d : Int) (hd : d ≤ 0) :
    Duration.wholeMinutes d ≤ 0 ∧ (Duration.wholeMinutes d - 1) * Minute < d ∧
      d ≤ Duration.wholeMinutes d * Minute := by
  rw [wholeMinutes_of_nonpos d hd]
  unfold Minute
  omega

/-- Go's `d / Minute` and `d % Minute` by the sign of `d`. -/
theorem tdiv_tmod_cases (d : Int) :
    (0 ≤ d ∧ Int.tdiv d Minute = d / Minute ∧ Int.tmod d Minute = d % Minute) ∨
    (d ≤ 0 ∧ Int.tdiv d Minute = -((-d) / Minute) ∧ Int.tmod d Minute = -((-d) % Minute)) := by
  have hsum := Int.tdiv_add_tmod d Minute
  rcases le_total 0 d with hd | hd
  · left
    have h1 := wholeMinutes_of_nonneg d hd
    unfold Duration.wholeMinutes at h1
    refine ⟨hd, h1, ?_⟩
    rw [h1] at hsum
    have := Int.ediv_add_emod d Minute
    omega
  · right
    have h1 := wholeMinutes_of_nonpos d hd
    unfold Duration.wholeMinutes at h1
    refine ⟨hd, h1, ?_⟩
    rw [h1] at hsum
    have := Int.ediv_add_emod (-d) Minute
    have e1 : Minute * -(-d / Minute) = -(Minute * (-d / Minute)) := by ring
    omega

/-! ## Lemmas on float64 rounding -/

/-- Rounding to the nearest integer moves a value by at most one half. -/
theorem roundHalfEven_sub_le (w : ℚ) : |(roundHalfEven w : ℚ) - w| ≤ 1 / 2 := by
  have h1 := Int.floor_le w
  have h2 := Int.lt_floor_add_one w
  unfold roundHalfEven
  rw [abs_le]
  split_ifs with ha hb hc
  · constructor <;> linarith
  · push_cast; constructor <;> linarith
  · constructor <;> linarith
  · push_cast; constructor <;> linarith

/-- Integers are not rounded. -/
theorem roundHalfEven_intCast (k : Int) : roundHalfEven (k : ℚ) = k := by
  unfold roundHalfEven
  rw [Int.floor_intCast, sub_self, if_pos (by norm_num)]

/-- Rounding to the nearest integer is monotone. -/
theorem roundHalfEven_mono {a b : ℚ} (h : a ≤ b) : roundHalfEven a ≤ roundHalfEven b := by
  rcases eq_or_lt_of_le h with h | h
  · rw [h]
  · by_contra hc
    push_neg at hc
    have h1 := abs_le.mp (roundHalfEven_sub_le a)
    have h2 := abs_le.mp (roundHalfEven_sub_le b)
    have h3 : (roundHalfEven b : ℚ) + 1 ≤ roundHalfEven a := by exact_mod_cast hc
    linarith [h1.2, h2.1]

/-- Rounding to the nearest integer, ties to even, is symmetric about zero. -/
theorem roundHalfEven_neg (w : ℚ) : roundHalfEven (-w) = -roundHalfEven w := by
  by_cases hw : (⌊w⌋ : ℚ) = w
  · rw [← hw, ← Int.cast_neg, roundHalfEven_intCast, roundHalfEven_intCast]
  · have h1 := Int.floor_le w
    have h2 := Int.lt_floor_add_one w
    have hlt : (⌊w⌋ : ℚ) < w := lt_of_le_of_ne h1 hw
    have hf : ⌊-w⌋ = -⌊w⌋ - 1 := by
      rw [Int.floor_eq_iff]
      push_cast
      constructor <;> linarith
    unfold roundHalfEven
    rw [hf]
    push_cast
    split_ifs <;> first | omega | (exfalso; linarith)

/-- The binary exponent of a positive value. -/
theorem log_spec (x : ℚ) (hx : 0 < x) :
    (2 : ℚ) ^ Int.log 2 x ≤ x ∧ x < (2 : ℚ) ^ (Int.log 2 x + 1) := by
  have h1 := Int.zpow_log_le_self (b := 2) (by norm_num) hx
  have h2 := Int.lt_zpow_succ_log_self (b := 2) (by norm_num) x
  simp only [Nat.cast_ofNat] at h1 h2
  exact ⟨h1, h2⟩

/-- Powers of two are positive. -/
theorem two_zpow_pos (k : Int) : (0 : ℚ) < 2 ^ k := zpow_pos (by norm_num) k

/-- Powers of two increase with the exponent. -/
theorem two_zpow_le {a b : Int} (h : a ≤ b) : (2 : ℚ) ^ a ≤ 2 ^ b :=
  zpow_le_zpow_right₀ (by norm_num) h

/-- Powers of two increase strictly with the exponent. -/
theorem two_zpow_lt_iff {a b : Int} : (2 : ℚ) ^ a < 2 ^ b ↔ a < b :=
  zpow_lt_zpow_iff_right₀ (by norm_num)

/-- Zero is a float64 value. -/
theorem roundFloat64_zero : roundFloat64 0 = 0 := by
  unfold roundFloat64
  rw [if_pos rfl]

/-- float64 rounding is symmetric about zero. -/
theorem roundFloat64_neg (x : ℚ) : roundFloat64 (-x) = -roundFloat64 x := by
  unfold roundFloat64
  by_cases hx : x = 0
  · simp [hx]
  · rw [if_neg (neg_ne_zero.mpr hx), if_neg hx, abs_neg, neg_div, roundHalfEven_neg]
    push_cast
    ring

/-- The rounding of a positive value. -/
theorem roundFloat64_of_pos (x : ℚ) (hx : 0 < x) :
    roundFloat64 x =
      roundHalfEven (x / 2 ^ (Int.log 2 x - 52)) * 2 ^ (Int.log 2 x - 52) := by
  unfold roundFloat64
  rw [if_neg hx.ne', abs_of_pos hx]

/-- A positive value divided by its unit in the last place lies in `[2 ^ 52, 2 ^ 53)`. -/
theorem scaled_bounds (x : ℚ) (hx : 0 < x) :
    (2 : ℚ) ^ (52 : Int) ≤ x / 2 ^ (Int.log 2 x - 52) ∧
      x / 2 ^ (Int.log 2 x - 52) < (2 : ℚ) ^ (53 : Int) := by
  obtain ⟨h1, h2⟩ := log_spec x hx
  have hu := two_zpow_pos (Int.log 2 x - 52)
  constructor
  · rw [le_div_iff₀ hu, ← zpow_add₀ (by norm_num)]
    simpa using h1
  · rw [div_lt_iff₀ hu, ← zpow_add₀ (by norm_num)]
    have : (53 : Int) + (Int.log 2 x - 52) = Int.log 2 x + 1 := by ring
    rw [this]
    exact h2

/-- The significand of the rounding of a positive value lies in `[2 ^ 52, 2 ^ 53]`. -/
theorem mantissa_bounds (x : ℚ) (hx : 0 < x) :
    (2 : Int) ^ 52 ≤ roundHalfEven (x / 2 ^ (Int.log 2 x - 52)) ∧
      roundHalfEven (x / 2 ^ (Int.log 2 x - 52)) ≤ (2 : Int) ^ 53 := by
  obtain ⟨h1, h2⟩ := scaled_bounds x hx
  constructor
  · have := roundHalfEven_mono (a := ((2 ^ 52 : Int) : ℚ)) (by push_cast; exact_mod_cast h1)
    rwa [roundHalfEven_intCast] at this
  · have := roundHalfEven_mono (b := ((2 ^ 53 : Int) : ℚ)) (by push_cast; exact_mod_cast h2.le)
    rwa [roundHalfEven_intCast] at this

/-- Rounding keeps a positive value between the powers of two around it. -/
theorem roundFloat64_pos_bounds (x : ℚ) (hx : 0 < x) :
    (2 : ℚ) ^ Int.log 2 x ≤ roundFloat64 x ∧ roundFloat64 x ≤ (2 : ℚ) ^ (Int.log 2 x + 1) := by
  obtain ⟨h1, h2⟩ := mantissa_bounds x hx
  have hu := two_zpow_pos (Int.log 2 x - 52)
  rw [roundFloat64_of_pos x hx]
  have e1 : (2 : ℚ) ^ Int.log 2 x = 2 ^ (52 : Int) * 2 ^ (Int.log 2 x - 52) := by
    rw [← zpow_add₀ (by norm_num)]; congr 1; ring
  have e2 : (2 : ℚ) ^ (Int.log 2 x + 1) = 2 ^ (53 : Int) * 2 ^ (Int.log 2 x - 52) := by
    rw [← zpow_add₀ (by norm_num)]; congr 1; ring
  rw [e1, e2]
  constructor
  · apply mul_le_mul_of_nonneg_right _ hu.le
    exact_mod_cast h1
  · apply mul_le_mul_of_nonneg_right _ hu.le
    exact_mod_cast h2

/-- The rounding of a non-negative value is non-negative. -/
theorem roundFloat64_nonneg (x : ℚ) (hx : 0 ≤ x) : 0 ≤ roundFloat64 x := by
  rcases eq_or_lt_of_le hx with h | h
  · rw [← h, roundFloat64_zero]
  · exact le_trans (two_zpow_pos _).le (roundFloat64_pos_bounds x h).1

/-- float64 rounding is monotone on the positive values. -/
theorem roundFloat64_mono_pos {x y : ℚ} (hx : 0 < x) (h : x ≤ y) :
    roundFloat64 x ≤ roundFloat64 y := by
  have hy : 0 < y := lt_of_lt_of_le hx h
  have hlog : Int.log 2 x ≤ Int.log 2 y := Int.log_mono_right hx h
  rcases eq_or_lt_of_le hlog with he | he
  · rw [roundFloat64_of_pos x hx, roundFloat64_of_pos y hy, he]
    apply mul_le_mul_of_nonneg_right _ (two_zpow_pos _).le
    have : x / 2 ^ (Int.log 2 y - 52) ≤ y / 2 ^ (Int.log 2 y - 52) :=
      div_le_div_of_nonneg_right h (two_zpow_pos _).le
    exact_mod_cast roundHalfEven_mono this
  · calc roundFloat64 x ≤ (2 : ℚ) ^ (Int.log 2 x + 1) := (roundFloat64_pos_bounds x hx).2
      _ ≤ (2 : ℚ) ^ Int.log 2 y := two_zpow_le (by omega)
      _ ≤ roundFloat64 y := (roundFloat64_pos_bounds y hy).1

/-- float64 rounding is monotone. -/
theorem roundFloat64_mono (x y : ℚ) (h : x ≤ y) : roundFloat64 x ≤ roundFloat64 y := by
  rcases lt_trichotomy 0 x with hx | hx | hx
  · exact roundFloat64_mono_pos hx h
  · rw [← hx, roundFloat64_zero]
    exact roundFloat64_nonneg y (hx ▸ h)
  · rcases le_or_lt 0 y with hy | hy
    · have h1 := roundFloat64_nonneg (-x) (by linarith)
      rw [roundFloat64_neg] at h1
      linarith [roundFloat64_nonneg y hy]
    · have h1 := roundFloat64_mono_pos (x := -y) (y := -x) (by linarith) (by linarith)
      rw [roundFloat64_neg, roundFloat64_neg] at h1
      linarith

/-- A value `m * 2 ^ j` with a significand `m` of at most 53 bits is not rounded. -/
theorem roundFloat64_exact_zpow (m j : Int) (hm : |m| < 2 ^ 53) :
    roundFloat64 (m * 2 ^ j) = m * 2 ^ j := by
  wlog hpos : 0 < m generalizing m
  · rcases eq_or_lt_of_le (not_lt.mp hpos) with h0 | hneg
    · simp [h0, roundFloat64_zero]
    · have := this (-m) (by rwa [abs_neg]) (by omega)
      push_cast at this
      rw [neg_mul, roundFloat64_neg] at this
      linarith
  · have hx : (0 : ℚ) < m * 2 ^ j := mul_pos (by exact_mod_cast hpos) (two_zpow_pos j)
    obtain ⟨h1, _⟩ := log_spec _ hx
    have hmq : (m : ℚ) < 2 ^ (53 : Int) := by
      rw [abs_of_pos hpos] at hm
      exact_mod_cast hm
    have hlt : (2 : ℚ) ^ Int.log 2 ((m : ℚ) * 2 ^ j) < 2 ^ (53 + j) := by
      refine lt_of_le_of_lt h1 ?_
      rw [zpow_add₀ (by norm_num)]
      exact mul_lt_mul_of_pos_right hmq (two_zpow_pos j)
    rw [two_zpow_lt_iff] at hlt
    obtain ⟨t, ht⟩ : ∃ t : ℕ, j - (Int.log 2 ((m : ℚ) * 2 ^ j) - 52) = t :=
      ⟨(j - (Int.log 2 ((m : ℚ) * 2 ^ j) - 52)).toNat, (Int.toNat_of_nonneg (by omega)).symm⟩
    have hw : (m : ℚ) * 2 ^ j / 2 ^ (Int.log 2 ((m : ℚ) * 2 ^ j) - 52) =
        ((m * 2 ^ t : Int) : ℚ) := by
      rw [mul_div_assoc, ← zpow_sub₀ (by norm_num), ht, zpow_natCast]
      push_cast
      ring
    rw [roundFloat64_of_pos _ hx, hw, roundHalfEven_intCast, ← hw]
    field_simp

/-- Integers below `2 ^ 53` in absolute value are float64 values. -/
theorem roundFloat64_intCast (m : Int) (hm : |m| < 2 ^ 53) : roundFloat64 m = m := by
  have := roundFloat64_exact_zpow m 0 hm
  simpa using this

/-- The values `m / 2 ^ k` with `|m| ≤ 2 ^ 53` are float64 values. -/
theorem roundFloat64_exact (m : Int) (k : Nat) (hm : |m| ≤ 2 ^ 53) (_hk : k ≤ 1074) :
    roundFloat64 (m / 2 ^ k) = m / 2 ^ k := by
  rcases lt_or_eq_of_le hm with h | h
  · have := roundFloat64_exact_zpow m (-(k : Int)) h
    rw [zpow_neg, zpow_natCast, ← div_eq_mul_inv] at this
    exact this
  · obtain ⟨s, hs, hs2⟩ : ∃ s : Int, m = s * 2 ^ 53 ∧ |s| = 1 := by
      rcases abs_choice m with hc | hc
      · exact ⟨1, by rw [← hc, h]; ring, by simp⟩
      · exact ⟨-1, by linarith [hc, h], by simp⟩
    have := roundFloat64_exact_zpow s (53 - (k : Int)) (by rw [hs2]; norm_num)
    have e : (m : ℚ) / 2 ^ k = s * 2 ^ (53 - (k : Int)) := by
      rw [hs, zpow_sub₀ (by norm_num), zpow_natCast]
      push_cast
      norm_num
      ring
    rw [e]
    exact this

/-! ## Lemmas on the float64 computation of `Minutes` -/

/-- Integers up to `2 ^ 53` in absolute value are not rounded. -/
theorem Float64Rounding.exact_int (R : Float64Rounding) (m : Int) (h : |m| ≤ 2 ^ 53) :
    R.round m = m := by
  have := R.exact m 0 h (by omega)
  simpa using this

/-- Computed in float64 with any rounding, `int(d.Minutes()) > 1` has the outcome of the
exact computation, for every duration `d`. -/
theorem minutes_gate_float64 (R : Float64Rounding) (d : Int)
    (hlo : minDuration ≤ d) (hhi : d ≤ maxDuration) :
    truncToInt (Duration.Minutes R d) > 1 ↔ Duration.wholeMinutes d > 1 := by
  rw [wholeMinutes_gt_one_iff]
  unfold minDuration at hlo
  unfold maxDuration at hhi
  have hM : Minute = 60000000000 := by unfold Minute; norm_num
  have hc : R.round (60 * 1000000000) = 60000000000 := by
    have := R.exact_int 60000000000 (by norm_num)
    norm_num at this ⊢
    exact this
  have h0 : R.round 0 = 0 := by simpa using R.exact_int 0 (by norm_num)
  unfold Duration.Minutes
  simp only [hc]
  rcases tdiv_tmod_cases d with ⟨hd, hq, hr⟩ | ⟨hd, hq, hr⟩
  · rw [hq, hr]
    have hq0 : 0 ≤ d / Minute := by rw [hM]; omega
    have hqb : d / Minute ≤ 2 ^ 53 := by rw [hM]; omega
    have hr0 : 0 ≤ d % Minute := by rw [hM]; omega
    have hrb : d % Minute ≤ 60000000000 - 1 := by rw [hM]; omega
    rw [R.exact_int _ (by rw [abs_of_nonneg hq0]; exact hqb),
      R.exact_int _ (by rw [abs_of_nonneg hr0]; omega)]
    have hr0q : (0 : ℚ) ≤ ((d % Minute : Int) : ℚ) := by exact_mod_cast hr0
    have hrbq : ((d % Minute : Int) : ℚ) ≤ 60000000000 - 1 := by exact_mod_cast hrb
    set z := R.round (((d % Minute : Int) : ℚ) / 60000000000) with hz
    have hz0 : 0 ≤ z := by
      rw [← h0]
      exact R.mono _ _ (by positivity)
    have hz1 : z ≤ ((2 ^ 36 - 1 : Int) : ℚ) / 2 ^ 36 := by
      rw [← R.exact (2 ^ 36 - 1) 36 (by norm_num) (by norm_num)]
      apply R.mono
      rw [div_le_div_iff₀ (by norm_num) (by norm_num)]
      push_cast
      nlinarith
    by_cases h2 : 2 * Minute ≤ d
    · have hq2 : 2 ≤ d / Minute := by rw [hM] at h2 ⊢; omega
      have hq2q : (2 : ℚ) ≤ ((d / Minute : Int) : ℚ) := by exact_mod_cast hq2
      have h2r : R.round 2 = 2 := by simpa using R.exact_int 2 (by norm_num)
      have hs : (2 : ℚ) ≤ R.round (((d / Minute : Int) : ℚ) + z) := by
        rw [← h2r]
        exact R.mono _ _ (by linarith)
      simp only [h2, iff_true]
      unfold truncToInt
      rw [if_pos (by linarith)]
      have : (2 : Int) ≤ ⌊R.round (((d / Minute : Int) : ℚ) + z)⌋ :=
        Int.le_floor.mpr (by exact_mod_cast hs)
      omega
    · have hq1 : d / Minute ≤ 1 := by rw [hM] at h2 ⊢; omega
      have hq1q : ((d / Minute : Int) : ℚ) ≤ 1 := by exact_mod_cast hq1
      have hq0q : (0 : ℚ) ≤ ((d / Minute : Int) : ℚ) := by exact_mod_cast hq0
      have hs : R.round (((d / Minute : Int) : ℚ) + z) ≤ ((2 ^ 37 - 1 : Int) : ℚ) / 2 ^ 36 := by
        rw [← R.exact (2 ^ 37 - 1) 36 (by norm_num) (by norm_num)]
        apply R.mono
        have : ((2 ^ 37 - 1 : Int) : ℚ) / 2 ^ 36 = 1 + ((2 ^ 36 - 1 : Int) : ℚ) / 2 ^ 36 := by
          push_cast; norm_num
        rw [this]
        linarith
      have hs0 : 0 ≤ R.round (((d / Minute : Int) : ℚ) + z) := by
        rw [← h0]
        exact R.mono _ _ (by linarith)
      simp only [h2, iff_false, not_lt, gt_iff_lt]
      unfold truncToInt
      rw [if_pos hs0]
      have hlt : R.round (((d / Minute : Int) : ℚ) + z) < ((2 : Int) : ℚ) := by
        refine lt_of_le_of_lt hs ?_
        push_cast; norm_num
      have := Int.floor_lt.mpr hlt
      omega
  · rw [hq, hr]
    have hq0 : 0 ≤ (-d) / Minute := by rw [hM]; omega
    have hqb : (-d) / Minute ≤ 2 ^ 53 := by rw [hM]; omega
    have hr0 : 0 ≤ (-d) % Minute := by rw [hM]; omega
    have hrb : (-d) % Minute ≤ 60000000000 - 1 := by rw [hM]; omega
    rw [R.exact_int _ (by rw [abs_neg, abs_of_nonneg hq0]; exact hqb),
      R.exact_int _ (by rw [abs_neg, abs_of_nonneg hr0]; omega)]
    have hr0q : (0 : ℚ) ≤ (((-d) % Minute : Int) : ℚ) := by exact_mod_cast hr0
    have hq0q : (0 : ℚ) ≤ (((-d) / Minute : Int) : ℚ) := by exact_mod_cast hq0
    have hz0 : R.round (((-((-d) % Minute) : Int) : ℚ) / 60000000000) ≤ 0 := by
      rw [← h0]
      apply R.mono
      push_cast
      apply div_nonpos_of_nonpos_of_nonneg <;> linarith
    have hs0 : R.round (((-((-d) / Minute) : Int) : ℚ) +
        R.round (((-((-d) % Minute) : Int) : ℚ) / 60000000000)) ≤ 0 := by
      rw [← h0]
      apply R.mono
      push_cast
      push_cast at hz0
      linarith
    have h2 : ¬ (2 * Minute ≤ d) := by rw [hM]; omega
    simp only [h2, iff_false, not_lt, gt_iff_lt]
    unfold truncToInt
    split_ifs with hx
    · have : R.round (((-((-d) / Minute) : Int) : ℚ) +
        R.round (((-((-d) % Minute) : Int) : ℚ) / 60000000000)) = 0 := le_antisymm hs0 hx
      rw [this]
      simp
    · have : ⌈R.round (((-((-d) / Minute) : Int) : ℚ) +
        R.round (((-((-d) % Minute) : Int) : ℚ) / 60000000000))⌉ ≤ 0 :=
        Int.ceil_le.mpr (by exact_mod_cast hs0)
      omega

/-- Computed in float64 with any rounding, `int(d.Minutes())` of a non-positive duration
is not positive. -/
theorem minutes_nonpos_float64 (R : Float64Rounding) (d : Int)
    (hlo : minDuration ≤ d) (hd : d ≤ 0) : truncToInt (Duration.Minutes R d) ≤ 0 := by
  have h1 : ¬ (Duration.wholeMinutes d > 1) := by
    rw [wholeMinutes_gt_one_iff]
    unfold Minute
    omega
  have h2 := minutes_gate_float64 R d hlo (by unfold maxDuration; omega)
  by_contra hc
  push_neg at hc
  rcases tdiv_tmod_cases d with ⟨hd0, _, _⟩ | ⟨_, hq, hr⟩
  · have hz : d = 0 := le_antisymm hd hd0
    subst hz
    have h0 : R.round 0 = 0 := by simpa using R.exact_int 0 (by norm_num)
    have : Duration.Minutes R 0 = 0 := by
      unfold Duration.Minutes
      simp [h0]
    rw [this] at hc
    simp [truncToInt] at hc
  · have hM : Minute = 60000000000 := by unfold Minute; norm_num
    unfold minDuration at hlo
    have h0 : R.round 0 = 0 := by simpa using R.exact_int 0 (by norm_num)
    have hq0 : 0 ≤ (-d) / Minute := by rw [hM]; omega
    have hqb : (-d) / Minute ≤ 2 ^ 53 := by rw [hM]; omega
    have hr0 : 0 ≤ (-d) % Minute := by rw [hM]; omega
    have hrb : (-d) % Minute ≤ 60000000000 - 1 := by rw [hM]; omega
    have hc60 : R.round (60 * 1000000000) = 60000000000 := by
      have := R.exact_int 60000000000 (by norm_num)
      norm_num at this ⊢
      exact this
    have hr0q : (0 : ℚ) ≤ (((-d) % Minute : Int) : ℚ) := by exact_mod_cast hr0
    have hq0q : (0 : ℚ) ≤ (((-d) / Minute : Int) : ℚ) := by exact_mod_cast hq0
    have hx : Duration.Minutes R d ≤ 0 := by
      unfold Duration.Minutes
      simp only [hc60]
      rw [hq, hr, R.exact_int _ (by rw [abs_neg, abs_of_nonneg hq0]; exact hqb),
        R.exact_int _ (by rw [abs_neg, abs_of_nonneg hr0]; omega)]
      have hz0 : R.round (((-((-d) % Minute) : Int) : ℚ) / 60000000000) ≤ 0 := by
        rw [← h0]
        apply R.mono
        push_cast
        apply div_nonpos_of_nonpos_of_nonneg <;> linarith
      rw [← h0]
      apply R.mono
      push_cast
      push_cast at hz0
      linarith
    unfold truncToInt at hc
    split_ifs at hc with hx0
    · have : Duration.Minutes R d = 0 := le_antisymm hx hx0
      rw [this] at hc
      simp at hc
    · have : ⌈Duration.Minutes R d⌉ ≤ 0 := Int.ceil_le.mpr (by exact_mod_cast hx)
      omega

/-- The float64 computation of `Minutes` is the computation under the rounding
`roundFloat64`. -/
theorem MinutesFloat64_eq (d : Int) :
    Duration.MinutesFloat64 d =
      Duration.Minutes ⟨roundFloat64, roundFloat64_mono, roundFloat64_exact⟩ d :=
  rfl

/-- In float64, `int(d.Minutes()) > 1` holds exactly for the durations of at least two
minutes. -/
theorem intMinutes_gt_one_iff (d : Int) (hlo : minDuration ≤ d) (hhi : d ≤ maxDuration) :
    truncToInt (Duration.MinutesFloat64 d) > 1 ↔ 2 * Minute ≤ d := by
  rw [MinutesFloat64_eq, minutes_gate_float64 _ d hlo hhi, wholeMinutes_gt_one_iff]

/-- In float64, `int(d.Minutes())` of a non-positive duration is not positive. -/
theorem intMinutes_nonpos (d : Int) (hlo : minDuration ≤ d) (hd : d ≤ 0) :
    truncToInt (Duration.MinutesFloat64 d) ≤ 0 := by
  rw [MinutesFloat64_eq]
  exact minutes_nonpos_float64 _ d hlo hd

/-- The conversion to `int` is symmetric about zero. -/
theorem truncToInt_neg (x : ℚ) : truncToInt (-x) = -truncToInt x := by
  unfold truncToInt
  rcases lt_trichotomy 0 x with hx | hx | hx
  · rw [if_neg (by linarith), if_pos hx.le, Int.ceil_neg]
  · rw [← hx]
    simp
  · rw [if_pos (by linarith), if_neg (by linarith), Int.floor_neg]

/-- The float64 computation of `Minutes` is symmetric about zero. -/
theorem MinutesFloat64_neg (d : Int) :
    Duration.MinutesFloat64 (-d) = -Duration.MinutesFloat64 d := by
  have hmod : (-d).tmod Minute = -(d.tmod Minute) := by
    rw [Int.tmod_def, Int.tmod_def, Int.neg_tdiv]
    ring
  unfold Duration.MinutesFloat64
  simp only [Int.neg_tdiv, hmod]
  push_cast
  rw [roundFloat64_neg, roundFloat64_neg, neg_div, roundFloat64_neg, ← neg_add,
    roundFloat64_neg]

/-- Rounding a positive value adds at most half a unit in the last place. -/
theorem roundFloat64_le_add (y : ℚ) (hy : 0 < y) :
    roundFloat64 y ≤ y + 2 ^ (Int.log 2 y - 53) := by
  have hu := two_zpow_pos (Int.log 2 y - 52)
  have h := (abs_le.mp (roundHalfEven_sub_le (y / 2 ^ (Int.log 2 y - 52)))).2
  have e : (2 : ℚ) ^ (Int.log 2 y - 53) = 1 / 2 * 2 ^ (Int.log 2 y - 52) := by
    have : Int.log 2 y - 53 = -1 + (Int.log 2 y - 52) := by ring
    rw [this, zpow_add₀ (by norm_num)]
    norm_num
  rw [roundFloat64_of_pos y hy, e]
  have h2 : (roundHalfEven (y / 2 ^ (Int.log 2 y - 52)) : ℚ) ≤
      y / 2 ^ (Int.log 2 y - 52) + 1 / 2 := by linarith
  calc (roundHalfEven (y / 2 ^ (Int.log 2 y - 52)) : ℚ) * 2 ^ (Int.log 2 y - 52)
      ≤ (y / 2 ^ (Int.log 2 y - 52) + 1 / 2) * 2 ^ (Int.log 2 y - 52) :=
        mul_le_mul_of_nonneg_right h2 hu.le
    _ = y + 1 / 2 * 2 ^ (Int.log 2 y - 52) := by
        rw [add_mul, div_mul_cancel₀ _ hu.ne']

/-- One is a float64 value. -/
theorem roundFloat64_one : roundFloat64 1 = 1 := by
  simpa using roundFloat64_intCast 1 (by norm_num)

/-- The float64 computation of `Minutes` for a non-negative duration `d`: the whole
minutes `d / Minute` plus the rounded fraction, rounded. -/
theorem MinutesFloat64_of_nonneg (d : Int) (hd : 0 ≤ d) (hhi : d ≤ 2 ^ 63) :
    Duration.MinutesFloat64 d =
      roundFloat64 (((d / Minute : Int) : ℚ) +
        roundFloat64 (((d % Minute : Int) : ℚ) / 60000000000)) := by
  have hM : Minute = 60000000000 := by unfold Minute; norm_num
  obtain ⟨_, hq, hr⟩ : 0 ≤ d ∧ Int.tdiv d Minute = d / Minute ∧
      Int.tmod d Minute = d % Minute := by
    rcases tdiv_tmod_cases d with h | ⟨h0, h1, h2⟩
    · exact h
    · have hz : d = 0 := le_antisymm h0 hd
      subst hz
      exact ⟨le_refl _, by simp, by simp⟩
  have hq0 : 0 ≤ d / Minute := by rw [hM]; omega
  have hqb : d / Minute < 2 ^ 53 := by rw [hM]; omega
  have hr0 : 0 ≤ d % Minute := by rw [hM]; omega
  have hrb : d % Minute ≤ 60000000000 - 1 := by rw [hM]; omega
  have hc60 : roundFloat64 (60 * 1000000000) = 60000000000 := by
    have := roundFloat64_intCast 60000000000 (by norm_num)
    norm_num at this ⊢
    exact this
  unfold Duration.MinutesFloat64
  simp only [hc60]
  rw [hq, hr, roundFloat64_intCast _ (by rw [abs_of_nonneg hq0]; omega),
    roundFloat64_intCast _ (by rw [abs_of_nonneg hr0]; omega)]

/-- In float64, `int(d.Minutes())` of a non-negative duration is its number of whole
minutes or one more. -/
theorem intMinutes_bounds (d : Int) (hd : 0 ≤ d) (hhi : d ≤ 2 ^ 63) :
    d / Minute ≤ truncToInt (Duration.MinutesFloat64 d) ∧
      truncToInt (Duration.MinutesFloat64 d) ≤ d / Minute + 1 := by
  have hM : Minute = 60000000000 := by unfold Minute; norm_num
  have hq0 : 0 ≤ d / Minute := by rw [hM]; omega
  have hqb : d / Minute + 1 < 2 ^ 53 := by rw [hM]; omega
  have hr0 : 0 ≤ d % Minute := by rw [hM]; omega
  have hrb : d % Minute ≤ 60000000000 - 1 := by rw [hM]; omega
  have hq0q : (0 : ℚ) ≤ ((d / Minute : Int) : ℚ) := by exact_mod_cast hq0
  have hr0q : (0 : ℚ) ≤ ((d % Minute : Int) : ℚ) := by exact_mod_cast hr0
  have hrbq : ((d % Minute : Int) : ℚ) ≤ 60000000000 - 1 := by exact_mod_cast hrb
  rw [MinutesFloat64_of_nonneg d hd hhi]
  set z := roundFloat64 (((d % Minute : Int) : ℚ) / 60000000000) with hz
  have hz0 : 0 ≤ z := roundFloat64_nonneg _ (by positivity)
  have hz1 : z ≤ 1 := by
    have := roundFloat64_mono (((d % Minute : Int) : ℚ) / 60000000000) 1
      (by rw [div_le_iff₀ (by norm_num)]; linarith)
    rwa [roundFloat64_one] at this
  have hlow : ((d / Minute : Int) : ℚ) ≤ roundFloat64 (((d / Minute : Int) : ℚ) + z) := by
    have := roundFloat64_mono _ _ (show ((d / Minute : Int) : ℚ) ≤ ((d / Minute : Int) : ℚ) + z
      by linarith)
    rwa [roundFloat64_intCast _ (by rw [abs_of_nonneg hq0]; omega)] at this
  have hup : roundFloat64 (((d / Minute : Int) : ℚ) + z) ≤ ((d / Minute + 1 : Int) : ℚ) := by
    have := roundFloat64_mono (((d / Minute : Int) : ℚ) + z) ((d / Minute + 1 : Int) : ℚ)
      (by push_cast; linarith)
    rwa [roundFloat64_intCast _ (by rw [abs_of_nonneg (by omega)]; omega)] at this
  unfold truncToInt
  rw [if_pos (le_trans hq0q hlow)]
  exact ⟨Int.le_floor.mpr hlow, Int.cast_le.mp (le_trans (Int.floor_le _) hup)⟩

/-- In float64, `int(d.Minutes())` of a non-negative duration is its number of whole
minutes when the whole minutes are below `2 ^ k` and the fraction of a minute is at most
`c / 2 ^ 39`, a float64 value more than half a unit in the last place below 1. -/
theorem intMinutes_of_fraction_le (d : Int) (hd : 0 ≤ d) (hhi : d ≤ maxDuration) (k : Nat)
    (c : Int) (hq : d / Minute < 2 ^ k) (hc : |c| ≤ 2 ^ 53)
    (hr : (d % Minute) * 2 ^ 39 ≤ c * 60000000000)
    (hsum : (c : ℚ) / 2 ^ 39 + 2 ^ ((k : Int) - 54) < 1) :
    truncToInt (Duration.MinutesFloat64 d) = d / Minute := by
  have hM : Minute = 60000000000 := by unfold Minute; norm_num
  have hhi2 := hhi
  unfold maxDuration at hhi2
  have hq0 : 0 ≤ d / Minute := by rw [hM]; omega
  have hqb : d / Minute < 2 ^ 53 := by rw [hM]; omega
  have hq0q : (0 : ℚ) ≤ ((d / Minute : Int) : ℚ) := by exact_mod_cast hq0
  have hqkq : ((d / Minute : Int) : ℚ) + 1 ≤ 2 ^ (k : Int) := by
    have : d / Minute + 1 ≤ 2 ^ k := by omega
    rw [zpow_natCast]
    exact_mod_cast this
  have hr0 : 0 ≤ d % Minute := by rw [hM]; omega
  have hr0q : (0 : ℚ) ≤ ((d % Minute : Int) : ℚ) := by exact_mod_cast hr0
  have hrq : ((d % Minute : Int) : ℚ) * 2 ^ 39 ≤ (c : ℚ) * 60000000000 := by
    exact_mod_cast hr
  rw [MinutesFloat64_of_nonneg d hd (by omega)]
  set z := roundFloat64 (((d % Minute : Int) : ℚ) / 60000000000) with hz
  have hz0 : 0 ≤ z := roundFloat64_nonneg _ (by positivity)
  have hz1 : z ≤ (c : ℚ) / 2 ^ 39 := by
    rw [← roundFloat64_exact c 39 hc (by norm_num)]
    apply roundFloat64_mono
    rw [div_le_div_iff₀ (by norm_num) (by norm_num)]
    exact hrq
  have hlow : ((d / Minute : Int) : ℚ) ≤ roundFloat64 (((d / Minute : Int) : ℚ) + z) := by
    have := roundFloat64_mono _ _ (show ((d / Minute : Int) : ℚ) ≤ ((d / Minute : Int) : ℚ) + z
      by linarith)
    rwa [roundFloat64_intCast _ (by rw [abs_of_nonneg hq0]; omega)] at this
  have hup : roundFloat64 (((d / Minute : Int) : ℚ) + z) < ((d / Minute : Int) : ℚ) + 1 := by
    rcases eq_or_lt_of_le (add_nonneg hq0q hz0) with h0 | hpos
    · rw [← h0, roundFloat64_zero]
      linarith
    · have hpow : (0 : ℚ) < 2 ^ ((k : Int) - 54) := two_zpow_pos _
      have hylt : ((d / Minute : Int) : ℚ) + z < 2 ^ (k : Int) := by linarith
      have he : Int.log 2 (((d / Minute : Int) : ℚ) + z) < k := by
        rw [← two_zpow_lt_iff]
        exact lt_of_le_of_lt (log_spec _ hpos).1 hylt
      have hu : (2 : ℚ) ^ (Int.log 2 (((d / Minute : Int) : ℚ) + z) - 53) ≤
          2 ^ ((k : Int) - 54) := two_zpow_le (by omega)
      have := roundFloat64_le_add _ hpos
      linarith
  unfold truncToInt
  rw [if_pos (le_trans hq0q hlow), Int.floor_eq_iff]
  exact ⟨hlow, hup⟩

/-- In float64, `int(d.Minutes())` of a non-negative duration below `2 ^ 18` minutes is
its number of whole minutes. -/
theorem intMinutes_of_nonneg_lt (d : Int) (hd : 0 ≤ d) (hlt : d < 2 ^ 18 * Minute) :
    truncToInt (Duration.MinutesFloat64 d) = d / Minute := by
  have hM : Minute = 60000000000 := by unfold Minute; norm_num
  rw [hM] at hlt
  refine intMinutes_of_fraction_le d hd (by unfold maxDuration; omega) 18 (2 ^ 39 - 9)
    (by rw [hM]; omega) (by norm_num) (by rw [hM]; omega) ?_
  rw [zpow_sub₀ (by norm_num)]
  norm_num

/-- In float64, `int(d.Minutes())` of the largest duration is 153722867. -/
theorem intMinutes_maxDuration :
    truncToInt (Duration.MinutesFloat64 maxDuration) = 153722867 := by
  have hM : Minute = 60000000000 := by unfold Minute; norm_num
  have hq : maxDuration / Minute = 153722867 := by
    unfold maxDuration; rw [hM]; omega
  have hr : maxDuration % Minute = 16854775807 := by
    unfold maxDuration; rw [hM]; omega
  rw [← hq]
  refine intMinutes_of_fraction_le maxDuration (by unfold maxDuration; norm_num) (le_refl _) 28
    (2 ^ 38) (by rw [hq]; norm_num) (by norm_num) (by rw [hr]; norm_num) ?_
  rw [zpow_sub₀ (by norm_num)]
  norm_num

/-- In float64, `int(d.Minutes())` of a duration below `2 ^ 18` minutes in absolute value
is the duration truncated toward zero to whole minutes. -/
theorem intMinutes_eq_wholeMinutes (d : Int) (h : |d| < 2 ^ 18 * Minute) :
    truncToInt (Duration.MinutesFloat64 d) = Duration.wholeMinutes d := by
  rcases le_total 0 d with hd | hd
  · rw [abs_of_nonneg hd] at h
    rw [intMinutes_of_nonneg_lt d hd h, wholeMinutes_of_nonneg d hd]
  · rw [abs_of_nonpos hd] at h
    have := intMinutes_of_nonneg_lt (-d) (by omega) h
    rw [MinutesFloat64_neg, truncToInt_neg] at this
    rw [wholeMinutes_of_nonpos d hd]
    omega


/-- The binary exponent of a positive value between two consecutive powers of two. -/
theorem log_eq_of_bounds (x : ℚ) (e : Int) (h1 : (2 : ℚ) ^ e ≤ x) (h2 : x < 2 ^ (e + 1)) :
    Int.log 2 x = e := by
  have hx : 0 < x := lt_of_lt_of_le (two_zpow_pos e) h1
  obtain ⟨h3, h4⟩ := log_spec x hx
  have ha : e < Int.log 2 x + 1 := two_zpow_lt_iff.mp (lt_of_le_of_lt h1 h4)
  have hb : Int.log 2 x < e + 1 := two_zpow_lt_iff.mp (lt_of_le_of_lt h3 h2)
  omega

/-- An integer less than one half away from `w` is the rounding of `w`. -/
theorem roundHalfEven_eq_of_abs_lt (w : ℚ) (n : Int) (h : |(n : ℚ) - w| < 1 / 2) :
    roundHalfEven w = n := by
  have h1 := abs_le.mp (roundHalfEven_sub_le w)
  have h2 := abs_lt.mp h
  have ha : ((roundHalfEven w : Int) : ℚ) < ((n + 1 : Int) : ℚ) := by push_cast; linarith
  have hb : ((n : Int) : ℚ) < ((roundHalfEven w + 1 : Int) : ℚ) := by push_cast; linarith
  have ha2 := Int.cast_lt.mp ha
  have hb2 := Int.cast_lt.mp hb
  omega

/-- A value with binary exponent `e` rounds to the multiple of `2 ^ (e - 52)` that is
less than half that unit away. -/
theorem roundFloat64_eq_of_near (y : ℚ) (e n : Int) (h1 : (2 : ℚ) ^ e ≤ y)
    (h2 : y < 2 ^ (e + 1)) (h3 : |(n : ℚ) * 2 ^ (e - 52) - y| < 2 ^ (e - 53)) :
    roundFloat64 y = n * 2 ^ (e - 52) := by
  have hy : 0 < y := lt_of_lt_of_le (two_zpow_pos e) h1
  have hu := two_zpow_pos (e - 52)
  have e53 : (2 : ℚ) ^ (e - 53) = 1 / 2 * 2 ^ (e - 52) := by
    have : e - 53 = -1 + (e - 52) := by ring
    rw [this, zpow_add₀ (by norm_num)]
    norm_num
  rw [roundFloat64_of_pos y hy, log_eq_of_bounds y e h1 h2]
  congr 2
  apply roundHalfEven_eq_of_abs_lt
  have hdiv : (n : ℚ) - y / 2 ^ (e - 52) = ((n : ℚ) * 2 ^ (e - 52) - y) / 2 ^ (e - 52) := by
    field_simp
  rw [hdiv, abs_div, abs_of_pos hu, div_lt_iff₀ hu, ← e53]
  exact h3

/-- From `2 ^ 18` minutes on the float64 value can be one more than the whole minutes:
262144 minutes and 59.999999999 seconds give 262145. -/
theorem intMinutes_rounds_up :
    truncToInt (Duration.MinutesFloat64 15728699999999999) = 262145 := by
  have hM : Minute = 60000000000 := by unfold Minute; norm_num
  have hq : (15728699999999999 : Int) / Minute = 262144 := by rw [hM]; omega
  have hr : (15728699999999999 : Int) % Minute = 59999999999 := by rw [hM]; omega
  rw [MinutesFloat64_of_nonneg _ (by norm_num) (by norm_num), hq, hr]
  set z := roundFloat64 (((59999999999 : Int) : ℚ) / 60000000000) with hz
  have hz1 : z ≤ 1 := by
    have := roundFloat64_mono (((59999999999 : Int) : ℚ) / 60000000000) 1 (by norm_num)
    rwa [roundFloat64_one] at this
  have hz0 : ((2 ^ 37 - 3 : Int) : ℚ) / 2 ^ 37 ≤ z := by
    rw [← roundFloat64_exact (2 ^ 37 - 3) 37 (by norm_num) (by norm_num)]
    apply roundFloat64_mono
    norm_num
  have hz0n : (1 : ℚ) - 3 / 2 ^ 37 ≤ z := by
    refine le_trans (le_of_eq ?_) hz0
    push_cast
    norm_num
  have hval : roundFloat64 (((262144 : Int) : ℚ) + z) = ((262145 * 2 ^ 34 : Int) : ℚ) *
      2 ^ ((18 : Int) - 52) := by
    apply roundFloat64_eq_of_near
    · norm_num
      linarith
    · norm_num
      linarith
    · rw [abs_lt]
      norm_num
      norm_num at hz0n
      constructor <;> linarith
  have h5 : ((262145 * 2 ^ 34 : Int) : ℚ) * 2 ^ ((18 : Int) - 52) = ((262145 : Int) : ℚ) := by
    norm_num
  rw [hval, h5]
  unfold truncToInt
  rw [if_pos (by norm_num), Int.floor_intCast]

/-- In float64, `int(d.Minutes())` is the duration truncated toward zero to whole minutes,
or one more in absolute value. -/
theorem intMinutes_near_wholeMinutes (d : Int) (hlo : minDuration ≤ d)
    (hhi : d ≤ maxDuration) :
    (0 ≤ d → Duration.wholeMinutes d ≤ truncToInt (Duration.MinutesFloat64 d) ∧
      truncToInt (Duration.MinutesFloat64 d) ≤ Duration.wholeMinutes d + 1) ∧
    (d ≤ 0 → Duration.wholeMinutes d - 1 ≤ truncToInt (Duration.MinutesFloat64 d) ∧
      truncToInt (Duration.MinutesFloat64 d) ≤ Duration.wholeMinutes d) := by
  unfold minDuration at hlo
  unfold maxDuration at hhi
  constructor
  · intro hd
    rw [wholeMinutes_of_nonneg d hd]
    exact intMinutes_bounds d hd (by omega)
  · intro hd
    have := intMinutes_bounds (-d) (by omega) (by omega)
    rw [MinutesFloat64_neg, truncToInt_neg] at this
    rw [wholeMinutes_of_nonpos d hd]
    omega

/-! ## Lemmas on the classifier -/

/-- The loop of `filter_event` returns true exactly when a pattern is contained in the
name, or there is no pattern and `complete` was true before the loop. -/
theorem filter_event_loop_iff (metadataName : GoString) (names : List GoString)
    (complete : Bool) :
    filter_event_loop metadataName names complete = true ↔
      (names = [] ∧ complete = true) ∨ ∃ name ∈ names, Contains metadataName name = true := by
  induction names generalizing complete with
  | nil => simp [filter_event_loop]
  | cons name names ih =>
    rw [filter_event_loop]
    by_cases h : Contains metadataName name = true
    · simp [h]
    · rw [if_neg h, ih]
      simp [h]

/-- What `filter_event` computes. -/
theorem filter_event_iff (env : Env) (metadataName eventReason : GoString) :
    filter_event env metadataName eventReason = true ↔
      eventReason = env.EVENT_REASON ∧
        (env.POD_NAMES = [] ∨ ∃ name ∈ Split env.POD_NAMES, name <:+: metadataName) := by
  unfold filter_event
  by_cases hr : eventReason = env.EVENT_REASON
  · by_cases hp : env.POD_NAMES = []
    · simp [hr, hp]
    · have hlen : env.POD_NAMES.length > 0 := List.length_pos.mpr hp
      have hne : Split env.POD_NAMES ≠ [] := SplitByte_ne_nil _ _
      simp only [hr, hlen, if_true, filter_event_loop_iff, hne, false_and, false_or, hp,
        Contains_iff, true_and]
  · simp [hr]

/-- The test `diffMinutes > 1` on the instants themselves. -/
theorem diffMinutes_gt_one_iff (now : Int) (e : Event) :
    diffMinutes now e > 1 ↔ 2 * Minute ≤ now - e.LastTimestamp := by
  unfold diffMinutes
  rw [intMinutes_gt_one_iff _ (Time.Sub_range _ _).1 (Time.Sub_range _ _).2]
  exact Time.Sub_ge_iff _ _ _ (by unfold minDuration Minute; norm_num)
    (by unfold maxDuration Minute; norm_num)

/-- The test `diffMinutes > 1` of the classifier does not depend on the float64 rounding
of `Minutes`. -/
theorem diffMinutes_gate_float64 (R : Float64Rounding) (now : Int) (e : Event) :
    truncToInt (Duration.Minutes R (Time.Sub now e.LastTimestamp)) > 1 ↔
      diffMinutes now e > 1 := by
  unfold diffMinutes
  rw [minutes_gate_float64 R _ (Time.Sub_range _ _).1 (Time.Sub_range _ _).2,
    intMinutes_gt_one_iff _ (Time.Sub_range _ _).1 (Time.Sub_range _ _).2,
    wholeMinutes_gt_one_iff]

/-- The age of an event that is not dated before the current time is not positive. -/
theorem diffMinutes_nonpos (now : Int) (e : Event) (h : now ≤ e.LastTimestamp) :
    diffMinutes now e ≤ 0 := by
  have hsub : Time.Sub now e.LastTimestamp ≤ 0 := by
    unfold Time.Sub minDuration maxDuration
    split_ifs <;> omega
  exact intMinutes_nonpos _ (Time.Sub_range _ _).1 hsub

/-- Below `2 ^ 18` minutes (262144 minutes, 182 days) in absolute value, the age is the
duration truncated toward zero to whole minutes. -/
theorem diffMinutes_eq_wholeMinutes (now : Int) (e : Event)
    (h : |Time.Sub now e.LastTimestamp| < 2 ^ 18 * Minute) :
    diffMinutes now e = Duration.wholeMinutes (Time.Sub now e.LastTimestamp) :=
  intMinutes_eq_wholeMinutes _ h

/-- Below `2 ^ 18` minutes in absolute value, the age is the elapsed time truncated toward
zero to whole minutes. -/
theorem diffMinutes_of_lt (now : Int) (e : Event)
    (h1 : -(2 ^ 18 * Minute) < now - e.LastTimestamp)
    (h2 : now - e.LastTimestamp < 2 ^ 18 * Minute) :
    diffMinutes now e = Int.tdiv (now - e.LastTimestamp) Minute := by
  have hM : Minute = 60000000000 := by unfold Minute; norm_num
  rw [hM] at h1 h2
  have hfit : Time.Sub now e.LastTimestamp = now - e.LastTimestamp :=
    Time.Sub_of_fits _ _ (by unfold minDuration; omega) (by unfold maxDuration; omega)
  have := diffMinutes_eq_wholeMinutes now e (by rw [hfit, hM, abs_lt]; omega)
  rw [hfit] at this
  exact this

/-- The age is the duration truncated toward zero to whole minutes, or one more in
absolute value. -/
theorem diffMinutes_near_wholeMinutes (now : Int) (e : Event) :
    (0 ≤ Time.Sub now e.LastTimestamp →
      Duration.wholeMinutes (Time.Sub now e.LastTimestamp) ≤ diffMinutes now e ∧
      diffMinutes now e ≤ Duration.wholeMinutes (Time.Sub now e.LastTimestamp) + 1) ∧
    (Time.Sub now e.LastTimestamp ≤ 0 →
      Duration.wholeMinutes (Time.Sub now e.LastTimestamp) - 1 ≤ diffMinutes now e ∧
      diffMinutes now e ≤ Duration.wholeMinutes (Time.Sub now e.LastTimestamp)) :=
  intMinutes_near_wholeMinutes _ (Time.Sub_range _ _).1 (Time.Sub_range _ _).2

/-- The age at 262144 minutes and 59.999999999 seconds is 262145. -/
theorem diffMinutes_rounds_up (e : Event) (h : e.LastTimestamp = 0) :
    diffMinutes 15728699999999999 e = 262145 := by
  unfold diffMinutes
  rw [h, Time.Sub_of_fits _ _ (by unfold minDuration; norm_num)
    (by unfold maxDuration; norm_num)]
  exact intMinutes_rounds_up

/-- The age of an elapsed time beyond the largest duration is 153722867. -/
theorem diffMinutes_saturated (now : Int) (e : Event)
    (h : maxDuration < now - e.LastTimestamp) : diffMinutes now e = 153722867 := by
  unfold diffMinutes Time.Sub
  rw [if_pos h]
  exact intMinutes_maxDuration

/-- The send decision as the conjunction of its three gates. -/
theorem main_decision_fst (env : Env) (now : Int) (e : Event) :
    (main_decision env now e).1 =
      (filter_event env e.Metadata.Name e.Reason && !decide (e.Count > 1) &&
        !decide (diffMinutes now e > 1 ∧ ¬ (Contains e.Message "killed".toList = true))) := by
  unfold main_decision
  by_cases h1 : filter_event env e.Metadata.Name e.Reason = true <;>
  by_cases h2 : e.Count > 1 <;>
  by_cases h3 : diffMinutes now e > 1 ∧ ¬ (Contains e.Message "killed".toList = true) <;>
  simp [h1, h2, h3]

/-- The colour handed to `send_message` depends on `filter_event` alone. -/
theorem main_decision_snd (env : Env) (now : Int) (e : Event) :
    (main_decision env now e).2 =
      if filter_event env e.Metadata.Name e.Reason then "good".toList else "".toList := by
  unfold main_decision
  by_cases h1 : filter_event env e.Metadata.Name e.Reason = true <;> simp [h1]

/-- The send decision is true exactly when the three gates pass. -/
theorem send_gates_iff (env : Env) (now : Int) (e : Event) :
    (main_decision env now e).1 = true ↔
      filter_event env e.Metadata.Name e.Reason = true ∧ ¬ (e.Count > 1) ∧
        ¬ (diffMinutes now e > 1 ∧ ¬ (Contains e.Message "killed".toList = true)) := by
  rw [main_decision_fst, Bool.and_eq_true, Bool.and_eq_true, Bool.not_eq_true',
    Bool.not_eq_true', decide_eq_false_iff_not, decide_eq_false_iff_not, and_assoc]

/-- An event less than two minutes old has an age of at most 1. -/
theorem diffMinutes_le_one_of_lt (now : Int) (e : Event)
    (h : now - e.LastTimestamp < 2 * Minute) : diffMinutes now e ≤ 1 :=
  not_lt.mp (fun hgt => absurd ((diffMinutes_gt_one_iff now e).mp hgt) (not_le.mpr h))

/-- An event at least two minutes old has an age above 1. -/
theorem diffMinutes_gt_one_of_le (now : Int) (e : Event)
    (h : 2 * Minute ≤ now - e.LastTimestamp) : diffMinutes now e > 1 :=
  (diffMinutes_gt_one_iff now e).mpr h

/-- The pair computed by the loop body, the age test written on the instants. -/
theorem main_decision_eq (env : Env) (now : Int) (e : Event) :
    main_decision env now e =
      (filter_event env e.Metadata.Name e.Reason && !decide (e.Count > 1) &&
          !(decide (2 * Minute ≤ now - e.LastTimestamp) && !Contains e.Message "killed".toList),
        if filter_event env e.Metadata.Name e.Reason then "good".toList else "".toList) := by
  refine Prod.ext ?_ (main_decision_snd env now e)
  rw [main_decision_fst]
  congr 2
  by_cases h : 2 * Minute ≤ now - e.LastTimestamp
  · have hg := (diffMinutes_gt_one_iff now e).mpr h
    by_cases hk : Contains e.Message "killed".toList = true <;> simp [h, hg, hk]
  · have hg : ¬ (diffMinutes now e > 1) := fun hg => h ((diffMinutes_gt_one_iff now e).mp hg)
    simp [h, hg]

/-- The Deployed-Image-Tag field of the custom deployment attachment. -/
theorem deployedImageTag_eq (e : Event) :
    (custom_deploy_attachment e).fieldValue "Deployed-Image-Tag".toList =
      some (TrimPrefix e.Message "Successfully pulled image ".toList) := by
  rfl

/-! ## The send decision of the driver -/

/-- C1: for every environment (target reason and comma-separated allowlist), current time
and event, the final send decision of the driver is true if and only if the event's reason
equals the target reason, the allowlist is empty or the event's name contains one of its
entries, the count is not greater than 1, and it is not the case that the whole-minute
age exceeds 1 while the message lacks "killed". -/
theorem send_iff_all_gates (env : Env) (now : Int) (e : Event) :
    (main_decision env now e).1 = true ↔
      e.Reason = env.EVENT_REASON ∧
      (env.POD_NAMES = [] ∨ ∃ name ∈ Split env.POD_NAMES, name <:+: e.Metadata.Name) ∧
      ¬ (e.Count > 1) ∧
      ¬ (diffMinutes now e > 1 ∧ ¬ ("killed".toList <:+: e.Message)) := by
  rw [main_decision_fst, Bool.and_eq_true, Bool.and_eq_true, filter_event_iff,
    Bool.not_eq_true', Bool.not_eq_true', decide_eq_false_iff_not, decide_eq_false_iff_not,
    Contains_iff]
  tauto

/-- C2: when the event's reason differs from the target reason, `filter_event` returns
false for every name and the final send decision is false, whatever the allowlist, the
count, the age and the message are. -/
theorem reason_mismatch_never_sends (env : Env) (now : Int) (e : Event)
    (h : e.Reason ≠ env.EVENT_REASON) :
    (∀ metadataName, filter_event env metadataName e.Reason = false) ∧
      (main_decision env now e).1 = false := by
  have hf : ∀ metadataName, filter_event env metadataName e.Reason = false := by
    intro metadataName
    rw [← Bool.not_eq_true, filter_event_iff]
    exact fun hh => h hh.1
  refine ⟨hf, ?_⟩
  rw [main_decision_fst, hf]
  rfl

/-- Witness of C2: an event with reason "Failed" under the target reason "Successfully
assigned", with matching name, count 1 and age 0. -/
theorem reason_mismatch_never_sends_witness :
    (sampleEvent "web-7f8" "Failed" "pod killed" 0 1).Reason ≠ (sampleEnv "web-").EVENT_REASON ∧
      (∀ metadataName,
        filter_event (sampleEnv "web-") metadataName "Failed".toList = false) ∧
      (main_decision (sampleEnv "web-") 0 (sampleEvent "web-7f8" "Failed" "pod killed" 0 1)).1
        = false :=
  ⟨by decide,
    reason_mismatch_never_sends (sampleEnv "web-") 0
      (sampleEvent "web-7f8" "Failed" "pod killed" 0 1) (by decide)⟩

/-- C3: for an event whose reason equals the target reason, with a non-empty allowlist
`filter_event` returns true if and only if the name contains (as a substring, compared
element by element) at least one of the comma-separated patterns; with an empty
allowlist it returns true for every name. -/
theorem name_check (env : Env) (metadataName eventReason : GoString)
    (h : eventReason = env.EVENT_REASON) :
    (env.POD_NAMES ≠ [] →
      (filter_event env metadataName eventReason = true ↔
        ∃ name ∈ Split env.POD_NAMES, name <:+: metadataName)) ∧
    (env.POD_NAMES = [] → filter_event env metadataName eventReason = true) := by
  constructor
  · intro hp
    rw [filter_event_iff]
    constructor
    · rintro ⟨_, h1 | h2⟩
      · exact absurd h1 hp
      · exact h2
    · intro h2
      exact ⟨h, Or.inr h2⟩
  · intro hp
    rw [filter_event_iff]
    exact ⟨h, Or.inl hp⟩

/-- Witness of C3: the allowlist "web-" (patterns ["web-"]) accepts the name "web-7f8"
and rejects "db-7f8"; the empty allowlist accepts "db-7f8". -/
theorem name_check_witness :
    Split (sampleEnv "web-").POD_NAMES = ["web-".toList] ∧
    filter_event (sampleEnv "web-") "web-7f8".toList "Successfully assigned".toList = true ∧
    ¬ (filter_event (sampleEnv "web-") "db-7f8".toList "Successfully assigned".toList = true) ∧
    filter_event (sampleEnv "") "db-7f8".toList "Successfully assigned".toList = true :=
  ⟨by decide,
    ((name_check (sampleEnv "web-") "web-7f8".toList "Successfully assigned".toList rfl).1
      (by decide)).2 ⟨"web-".toList, by decide, [], "7f8".toList, rfl⟩,
    fun hf =>
      absurd
        (((name_check (sampleEnv "web-") "db-7f8".toList "Successfully assigned".toList rfl).1
          (by decide)).1 hf)
        (by decide),
    (name_check (sampleEnv "") "db-7f8".toList "Successfully assigned".toList rfl).2 rfl⟩

/-- C4: an event whose reason equals the target reason, with an empty name-pattern set,
count 1 and whole-minute age at most 1, is notified, and the colour passed on is
"good". -/
theorem fresh_first_event_sends_good (env : Env) (now : Int) (e : Event)
    (hr : e.Reason = env.EVENT_REASON) (hp : env.POD_NAMES = []) (hc : e.Count = 1)
    (ha : diffMinutes now e ≤ 1) :
    (main_decision env now e).1 = true ∧ (main_decision env now e).2 = "good".toList := by
  have hf : filter_event env e.Metadata.Name e.Reason = true :=
    (filter_event_iff env e.Metadata.Name e.Reason).mpr ⟨hr, Or.inl hp⟩
  constructor
  · rw [send_gates_iff]
    exact ⟨hf, by omega, fun hs => absurd hs.1 (by omega)⟩
  · rw [main_decision_snd, if_pos hf]

/-- Witness of C4: reason "Successfully assigned" equal to the target, no allowlist,
count 1, age 0 and age 1 min 59 s; and the scenario of the specification with the
allowlist "web-" and the name "web-7f8". -/
theorem fresh_first_event_sends_good_witness :
    diffMinutes (119 * Second) (sampleEvent "web-7f8" "Successfully assigned" "started" 0 1) ≤ 1 ∧
    main_decision (sampleEnv "") (119 * Second)
      (sampleEvent "web-7f8" "Successfully assigned" "started" 0 1) = (true, "good".toList) ∧
    main_decision (sampleEnv "web-") 0
      (sampleEvent "web-7f8" "Successfully assigned" "started" 0 1) = (true, "good".toList) :=
  ⟨diffMinutes_le_one_of_lt _ _ (by decide),
    Prod.ext
      (fresh_first_event_sends_good (sampleEnv "") (119 * Second)
        (sampleEvent "web-7f8" "Successfully assigned" "started" 0 1) rfl rfl rfl
        (diffMinutes_le_one_of_lt _ _ (by decide))).1
      (fresh_first_event_sends_good (sampleEnv "") (119 * Second)
        (sampleEvent "web-7f8" "Successfully assigned" "started" 0 1) rfl rfl rfl
        (diffMinutes_le_one_of_lt _ _ (by decide))).2,
    (main_decision_eq _ _ _).trans (by decide)⟩

/-- C5: an event with count greater than 1 is never notified, whatever its reason, name,
age and message are (a message containing "killed" included). -/
theorem repeated_event_never_sends (env : Env) (now : Int) (e : Event) (h : e.Count > 1) :
    (main_decision env now e).1 = false := by
  rw [← Bool.not_eq_true, send_gates_iff]
  exact fun hs => hs.2.1 h

/-- Witness of C5: count 3 with matching reason and name, age 0 and the message
"pod killed". -/
theorem repeated_event_never_sends_witness :
    (sampleEvent "web-7f8" "Successfully assigned" "pod killed" 0 3).Count > 1 ∧
    (main_decision (sampleEnv "web-") 0
      (sampleEvent "web-7f8" "Successfully assigned" "pod killed" 0 3)).1 = false :=
  ⟨by decide,
    repeated_event_never_sends (sampleEnv "web-") 0
      (sampleEvent "web-7f8" "Successfully assigned" "pod killed" 0 3) (by decide)⟩

/-- C6: an event whose whole-minute age exceeds 1 and whose message does not contain
"killed" is never notified, whatever its reason, name and count are. -/
theorem stale_event_never_sends (env : Env) (now : Int) (e : Event)
    (ha : diffMinutes now e > 1) (hm : ¬ ("killed".toList <:+: e.Message)) :
    (main_decision env now e).1 = false := by
  rw [← Bool.not_eq_true, send_gates_iff]
  exact fun hs => hs.2.2 ⟨ha, fun hk => hm ((Contains_iff _ _).mp hk)⟩

/-- Witness of C6: age 5 minutes, message "Started container", with matching reason and
name and count 1. -/
theorem stale_event_never_sends_witness :
    diffMinutes (5 * Minute)
      (sampleEvent "web-7f8" "Successfully assigned" "Started container" 0 1) > 1 ∧
    ¬ ("killed".toList <:+: "Started container".toList) ∧
    (main_decision (sampleEnv "web-") (5 * Minute)
      (sampleEvent "web-7f8" "Successfully assigned" "Started container" 0 1)).1 = false :=
  ⟨diffMinutes_gt_one_of_le _ _ (by decide), by decide,
    stale_event_never_sends (sampleEnv "web-") (5 * Minute)
      (sampleEvent "web-7f8" "Successfully assigned" "Started container" 0 1)
      (diffMinutes_gt_one_of_le _ _ (by decide)) (by decide)⟩

/-- C7: an event whose whole-minute age exceeds 1 and whose message contains "killed" is
notified when the other gates pass: the reason equals the target, the allowlist is empty
or the name contains one of its entries, and the count is 1. -/
theorem killed_bypasses_staleness (env : Env) (now : Int) (e : Event)
    (_ha : diffMinutes now e > 1) (hm : "killed".toList <:+: e.Message)
    (hr : e.Reason = env.EVENT_REASON)
    (hn : env.POD_NAMES = [] ∨ ∃ name ∈ Split env.POD_NAMES, name <:+: e.Metadata.Name)
    (hc : e.Count = 1) :
    (main_decision env now e).1 = true := by
  rw [send_gates_iff]
  exact ⟨(filter_event_iff _ _ _).mpr ⟨hr, hn⟩, by omega,
    fun hs => hs.2 ((Contains_iff _ _).mpr hm)⟩

/-- Witness of C7: count 1, age 5 minutes, message "pod killed", matching reason, name
"web-7f8" under the allowlist "web-". -/
theorem killed_bypasses_staleness_witness :
    diffMinutes (5 * Minute)
      (sampleEvent "web-7f8" "Successfully assigned" "pod killed" 0 1) = 5 ∧
    (main_decision (sampleEnv "web-") (5 * Minute)
      (sampleEvent "web-7f8" "Successfully assigned" "pod killed" 0 1)).1 = true :=
  ⟨(diffMinutes_of_lt _ _ (by decide) (by decide)).trans (by decide),
    killed_bypasses_staleness (sampleEnv "web-") (5 * Minute)
      (sampleEvent "web-7f8" "Successfully assigned" "pod killed" 0 1)
      (diffMinutes_gt_one_of_le _ _ (by decide)) (by decide) rfl
      (Or.inr ⟨"web-".toList, by decide, by decide⟩) rfl⟩

/-- C8, as the code has it: the age in minutes is `int(d.Minutes())`, computed in float64
from the duration `d` that `Sub` returns.  `d` is the elapsed time whenever that fits a
duration; for an elapsed time below `2 ^ 18` minutes (262144 minutes, 182 days) in
absolute value the age is the elapsed time truncated toward zero to whole minutes; in
general it is the whole minutes of `d` or one more in absolute value.  For an event whose
message lacks "killed" the staleness gate fires exactly when the elapsed time is at least
120 seconds: below 120 s the decision is the one of the reason, name and count gates,
from 120 s on it is false. -/
theorem staleness_threshold (env : Env) (now : Int) (e : Event)
    (hm : ¬ ("killed".toList <:+: e.Message)) :
    (minDuration ≤ elapsed now e → elapsed now e ≤ maxDuration →
      Time.Sub now e.LastTimestamp = elapsed now e) ∧
    (-(2 ^ 18 * Minute) < elapsed now e → elapsed now e < 2 ^ 18 * Minute →
      diffMinutes now e = Int.tdiv (elapsed now e) Minute) ∧
    (0 ≤ Time.Sub now e.LastTimestamp →
      Int.tdiv (Time.Sub now e.LastTimestamp) Minute ≤ diffMinutes now e ∧
      diffMinutes now e ≤ Int.tdiv (Time.Sub now e.LastTimestamp) Minute + 1) ∧
    (Time.Sub now e.LastTimestamp ≤ 0 →
      Int.tdiv (Time.Sub now e.LastTimestamp) Minute - 1 ≤ diffMinutes now e ∧
      diffMinutes now e ≤ Int.tdiv (Time.Sub now e.LastTimestamp) Minute) ∧
    ((diffMinutes now e > 1 ∧ ¬ (Contains e.Message "killed".toList = true)) ↔
      120 * Second ≤ elapsed now e) ∧
    (elapsed now e < 120 * Second →
      (main_decision env now e).1 =
        (filter_event env e.Metadata.Name e.Reason && decide (e.Count ≤ 1))) ∧
    (120 * Second ≤ elapsed now e → (main_decision env now e).1 = false) := by
  have hk : ¬ (Contains e.Message "killed".toList = true) :=
    fun hc => hm ((Contains_iff _ _).mp hc)
  have hgate : diffMinutes now e > 1 ↔ 120 * Second ≤ elapsed now e := by
    rw [diffMinutes_gt_one_iff]
    unfold elapsed Minute Second
    omega
  refine ⟨Time.Sub_of_fits _ _, diffMinutes_of_lt now e,
    (diffMinutes_near_wholeMinutes now e).1, (diffMinutes_near_wholeMinutes now e).2, ?_,
    ?_, ?_⟩
  · rw [← hgate]
    exact ⟨fun h => h.1, fun h => ⟨h, hk⟩⟩
  · intro hlt
    have hn : ¬ (diffMinutes now e > 1) := fun h => absurd (hgate.mp h) (by omega)
    rw [main_decision_fst]
    by_cases hc : e.Count > 1
    · have hc2 : ¬ (e.Count ≤ 1) := by omega
      simp [hc, hc2]
    · have hc2 : e.Count ≤ 1 := by omega
      simp [hc, hc2, hn]
  · intro hge
    rw [← Bool.not_eq_true, send_gates_iff]
    exact fun hs => hs.2.2 ⟨hgate.mpr hge, hk⟩

/-- C8 as stated fails: the age is not always the elapsed time truncated toward zero to
whole minutes.  An event seen 262144 minutes and 59.999999999 seconds ago has age 262145
(the float64 sum of `Minutes` rounds up), and an event whose elapsed time of 1056558180
minutes does not fit a duration (a lastTimestamp about 2009 years back, as for a missing
timestamp) has age 153722867 (the duration saturates). -/
theorem age_truncation_counterexample :
    (diffMinutes 15728699999999999
        (sampleEvent "web-7f8" "Successfully assigned" "Started container" 0 1) = 262145 ∧
      Int.tdiv (elapsed 15728699999999999
        (sampleEvent "web-7f8" "Successfully assigned" "Started container" 0 1)) Minute
        = 262144) ∧
    (diffMinutes 63393490800000000000
        (sampleEvent "web-7f8" "Successfully assigned" "Started container" 0 1) = 153722867 ∧
      Int.tdiv (elapsed 63393490800000000000
        (sampleEvent "web-7f8" "Successfully assigned" "Started container" 0 1)) Minute
        = 1056558180) ∧
    ¬ (∀ (now : Int) (e : Event), diffMinutes now e = Int.tdiv (elapsed now e) Minute) := by
  have h1 : diffMinutes 15728699999999999
      (sampleEvent "web-7f8" "Successfully assigned" "Started container" 0 1) = 262145 :=
    diffMinutes_rounds_up _ rfl
  have h2 : Int.tdiv (elapsed 15728699999999999
      (sampleEvent "web-7f8" "Successfully assigned" "Started container" 0 1)) Minute
      = 262144 := by decide
  refine ⟨⟨h1, h2⟩, ⟨diffMinutes_saturated _ _ (by decide), by decide⟩, ?_⟩
  intro hall
  have h3 := hall 15728699999999999
    (sampleEvent "web-7f8" "Successfully assigned" "Started container" 0 1)
  rw [h1, h2] at h3
  exact absurd h3 (by decide)

/-- Witness of the amended C8: with matching reason and name, count 1 and the message "Started
container", the event is notified 60.6 s (1.01 minutes, age 1) and 114 s (1.9 minutes,
age 1) after lastTimestamp and one nanosecond before 120 s, and suppressed at 120 s
(age 2). -/
theorem staleness_threshold_witness :
    diffMinutes 60600000000
      (sampleEvent "web-7f8" "Successfully assigned" "Started container" 0 1) = 1 ∧
    diffMinutes (114 * Second)
      (sampleEvent "web-7f8" "Successfully assigned" "Started container" 0 1) = 1 ∧
    diffMinutes (120 * Second)
      (sampleEvent "web-7f8" "Successfully assigned" "Started container" 0 1) = 2 ∧
    (main_decision (sampleEnv "web-") 60600000000
      (sampleEvent "web-7f8" "Successfully assigned" "Started container" 0 1)).1 = true ∧
    (main_decision (sampleEnv "web-") (114 * Second)
      (sampleEvent "web-7f8" "Successfully assigned" "Started container" 0 1)).1 = true ∧
    (main_decision (sampleEnv "web-") (120 * Second - 1)
      (sampleEvent "web-7f8" "Successfully assigned" "Started container" 0 1)).1 = true ∧
    (main_decision (sampleEnv "web-") (120 * Second)
      (sampleEvent "web-7f8" "Successfully assigned" "Started container" 0 1)).1 = false :=
  ⟨((staleness_threshold (sampleEnv "web-") 60600000000
      (sampleEvent "web-7f8" "Successfully assigned" "Started container" 0 1)
      (by decide)).2.1 (by decide) (by decide)).trans (by decide),
    ((staleness_threshold (sampleEnv "web-") (114 * Second)
      (sampleEvent "web-7f8" "Successfully assigned" "Started container" 0 1)
      (by decide)).2.1 (by decide) (by decide)).trans (by decide),
    ((staleness_threshold (sampleEnv "web-") (120 * Second)
      (sampleEvent "web-7f8" "Successfully assigned" "Started container" 0 1)
      (by decide)).2.1 (by decide) (by decide)).trans (by decide),
    ((staleness_threshold (sampleEnv "web-") 60600000000
      (sampleEvent "web-7f8" "Successfully assigned" "Started container" 0 1)
      (by decide)).2.2.2.2.2.1 (by decide)).trans (by decide),
    ((staleness_threshold (sampleEnv "web-") (114 * Second)
      (sampleEvent "web-7f8" "Successfully assigned" "Started container" 0 1)
      (by decide)).2.2.2.2.2.1 (by decide)).trans (by decide),
    ((staleness_threshold (sampleEnv "web-") (120 * Second - 1)
      (sampleEvent "web-7f8" "Successfully assigned" "Started container" 0 1)
      (by decide)).2.2.2.2.2.1 (by decide)).trans (by decide),
    (staleness_threshold (sampleEnv "web-") (120 * Second)
      (sampleEvent "web-7f8" "Successfully assigned" "Started container" 0 1)
      (by decide)).2.2.2.2.2.2 (by decide)⟩

/-- C9: whenever the final send decision is true, `filter_event` on the event's name and
reason is true (the count and age gates only turn a notify into a non-notify); in
particular an event whose name contains none of the patterns of a non-empty allowlist is
never notified, whatever its count, age and message are. -/
theorem gates_only_suppress (env : Env) (now : Int) (e : Event) :
    ((main_decision env now e).1 = true →
      filter_event env e.Metadata.Name e.Reason = true) ∧
    (env.POD_NAMES ≠ [] → (∀ name ∈ Split env.POD_NAMES, ¬ (name <:+: e.Metadata.Name)) →
      (main_decision env now e).1 = false) := by
  constructor
  · intro h
    exact ((send_gates_iff env now e).mp h).1
  · intro hp hn
    rw [← Bool.not_eq_true, send_gates_iff, filter_event_iff]
    rintro ⟨⟨_, h1 | ⟨name, hmem, hinf⟩⟩, _⟩
    · exact hp h1
    · exact hn name hmem hinf

/-- Witness of C9: under the allowlist "web-" the notified event "web-7f8" passes
`filter_event`, and the event "db-7f8" is not notified (count 1, age 0). -/
theorem gates_only_suppress_witness :
    filter_event (sampleEnv "web-") "web-7f8".toList "Successfully assigned".toList = true ∧
    (main_decision (sampleEnv "web-") 0
      (sampleEvent "db-7f8" "Successfully assigned" "pod killed" 0 1)).1 = false :=
  ⟨(gates_only_suppress (sampleEnv "web-") 0
      (sampleEvent "web-7f8" "Successfully assigned" "pod killed" 0 1)).1
      ((congrArg Prod.fst (main_decision_eq _ _ _)).trans (by decide)),
    (gates_only_suppress (sampleEnv "web-") 0
      (sampleEvent "db-7f8" "Successfully assigned" "pod killed" 0 1)).2 (by decide)
      (by decide)⟩

/-! ## The notification formatter -/

/-- C10: the Deployed-Image-Tag value built by `custom_deploy_attachment` is the message
with the literal "Successfully pulled image " removed once from its start when the
message starts with it, and the message unchanged otherwise; so a message
"Successfully pulled image " ++ s yields s. -/
theorem deployed_image_tag (e : Event) :
    (∀ s : GoString, e.Message = "Successfully pulled image ".toList ++ s →
      (custom_deploy_attachment e).fieldValue "Deployed-Image-Tag".toList = some s) ∧
    (¬ ("Successfully pulled image ".toList <+: e.Message) →
      (custom_deploy_attachment e).fieldValue "Deployed-Image-Tag".toList = some e.Message) ∧
    (∀ s : GoString,
      (custom_deploy_attachment
          { e with Message := "Successfully pulled image ".toList ++ s }).fieldValue
        "Deployed-Image-Tag".toList = some s) := by
  refine ⟨?_, ?_, ?_⟩
  · intro s hs
    rw [deployedImageTag_eq, hs, TrimPrefix_append]
  · intro h
    rw [deployedImageTag_eq, TrimPrefix_of_not_HasPrefix _ _ h]
  · intro s
    rw [deployedImageTag_eq, TrimPrefix_append]

/-- Witness of C10: "Successfully pulled image nginx:1.2" yields "nginx:1.2", "Random
text" yields "Random text", and the literal is removed once only. -/
theorem deployed_image_tag_witness :
    (custom_deploy_attachment
        (sampleEvent "web-7f8" "Pulled" "Successfully pulled image nginx:1.2" 0 1)).fieldValue
      "Deployed-Image-Tag".toList = some "nginx:1.2".toList ∧
    (custom_deploy_attachment
        (sampleEvent "web-7f8" "Pulled" "Random text" 0 1)).fieldValue
      "Deployed-Image-Tag".toList = some "Random text".toList ∧
    (custom_deploy_attachment
        (sampleEvent "web-7f8" "Pulled"
          "Successfully pulled image Successfully pulled image nginx" 0 1)).fieldValue
      "Deployed-Image-Tag".toList = some "Successfully pulled image nginx".toList :=
  ⟨(deployed_image_tag
      (sampleEvent "web-7f8" "Pulled" "Successfully pulled image nginx:1.2" 0 1)).1
      "nginx:1.2".toList (by decide),
    (deployed_image_tag (sampleEvent "web-7f8" "Pulled" "Random text" 0 1)).2.1 (by decide),
    (deployed_image_tag
      (sampleEvent "web-7f8" "Pulled"
        "Successfully pulled image Successfully pulled image nginx" 0 1)).1
      "Successfully pulled image nginx".toList (by decide)⟩

/-! ## Lemmas on colour resolution and on the pieces of `Split` -/

/-- No string starts both with "Success" and with "Fail". -/
theorem not_Success_and_Fail (r : GoString) (h1 : "Success".toList <+: r)
    (h2 : "Fail".toList <+: r) : False := by
  obtain ⟨t1, rfl⟩ := h1
  obtain ⟨t2, h⟩ := h2
  have := congrArg List.head? h
  simp at this

/-- The pieces of `a ++ sep :: b` are the pieces of `a` followed by the pieces of `b`. -/
theorem SplitByte_append_sep (sep : Char) (a b : GoString) :
    SplitByte sep (a ++ sep :: b) = SplitByte sep a ++ SplitByte sep b := by
  induction a with
  | nil => simp [SplitByte]
  | cons c a ih =>
    rw [List.cons_append, SplitByte, SplitByte, ih]
    by_cases h : c = sep
    · simp [h]
    · rw [if_neg h, if_neg h]
      cases hs : SplitByte sep a with
      | nil => exact absurd hs (SplitByte_ne_nil sep a)
      | cons piece pieces => simp

/-- The send decision and the colour of the driver, from `main_delivery`. -/
theorem main_delivery_eq (env : Env) (now : Int) (e : Event) :
    main_delivery env now e =
      if (main_decision env now e).1 = true then
        some (send_message_attachment e (main_decision env now e).2)
      else none := by
  rfl

/-- A true send decision comes with the colour "good". -/
theorem send_colour_good (env : Env) (now : Int) (e : Event)
    (h : (main_decision env now e).1 = true) : (main_decision env now e).2 = "good".toList := by
  rw [main_decision_snd, if_pos ((send_gates_iff env now e).mp h).1]

/-- A non-empty colour hint is the colour of the attachment. -/
theorem send_message_attachment_hint (e : Event) (color : GoString) (h : color ≠ []) :
    send_message_attachment e color = { custom_deploy_attachment e with Color := color } := by
  unfold send_message_attachment
  exact if_pos h

/-- A true send decision delivers the attachment of `send_message` with the hint "good". -/
theorem main_delivery_of_send (env : Env) (now : Int) (e : Event)
    (h : (main_decision env now e).1 = true) :
    main_delivery env now e = some (send_message_attachment e "good".toList) := by
  rw [main_delivery_eq, if_pos h, send_colour_good env now e h]

/-! ## Colour resolution and the payload of `send_message` -/

/-- C11: in `send_message`, a non-empty colour hint is the colour of the payload; with an
empty hint the colour is "good" when the event's reason starts with "Success", "danger"
when it starts with "Fail", and left unset (empty) otherwise. -/
theorem colour_resolution (e : Event) (color : GoString) :
    (color ≠ [] → (send_message_attachment e color).Color = color) ∧
    (color = [] → "Success".toList <+: e.Reason →
      (send_message_attachment e color).Color = "good".toList) ∧
    (color = [] → "Fail".toList <+: e.Reason →
      (send_message_attachment e color).Color = "danger".toList) ∧
    (color = [] → ¬ ("Success".toList <+: e.Reason) → ¬ ("Fail".toList <+: e.Reason) →
      (send_message_attachment e color).Color = []) := by
  refine ⟨?_, ?_, ?_, ?_⟩
  · intro h
    rw [send_message_attachment_hint e color h]
  · intro h hs
    unfold send_message_attachment
    rw [if_neg (fun hc => hc h), if_pos ((HasPrefix_iff _ _).mpr hs)]
  · intro h hf
    have hs : ¬ (HasPrefix e.Reason "Success".toList = true) :=
      fun hs => not_Success_and_Fail e.Reason ((HasPrefix_iff _ _).mp hs) hf
    unfold send_message_attachment
    rw [if_neg (fun hc => hc h), if_neg hs, if_pos ((HasPrefix_iff _ _).mpr hf)]
  · intro h hs hf
    unfold send_message_attachment
    rw [if_neg (fun hc => hc h), if_neg (fun hh => hs ((HasPrefix_iff _ _).mp hh)),
      if_neg (fun hh => hf ((HasPrefix_iff _ _).mp hh))]
    rfl

/-- Witness of C11: the hint "warning" is kept for a reason "Failed"; with an empty hint
"Successfully assigned" gives "good", "FailedScheduling" gives "danger" and "Killing"
leaves the colour unset. -/
theorem colour_resolution_witness :
    (send_message_attachment (sampleEvent "web-7f8" "Failed" "m" 0 1) "warning".toList).Color
      = "warning".toList ∧
    (send_message_attachment (sampleEvent "web-7f8" "Successfully assigned" "m" 0 1) []).Color
      = "good".toList ∧
    (send_message_attachment (sampleEvent "web-7f8" "FailedScheduling" "m" 0 1) []).Color
      = "danger".toList ∧
    (send_message_attachment (sampleEvent "web-7f8" "Killing" "m" 0 1) []).Color = [] :=
  ⟨(colour_resolution (sampleEvent "web-7f8" "Failed" "m" 0 1) "warning".toList).1 (by decide),
    (colour_resolution (sampleEvent "web-7f8" "Successfully assigned" "m" 0 1) []).2.1 rfl
      (by decide),
    (colour_resolution (sampleEvent "web-7f8" "FailedScheduling" "m" 0 1) []).2.2.1 rfl
      (by decide),
    (colour_resolution (sampleEvent "web-7f8" "Killing" "m" 0 1) []).2.2.2 rfl (by decide)
      (by decide)⟩

/-- C12, as the code has it: the attachment `send_message` posts is the custom deployment
view alone.  Whatever the event and the colour hint, its fallback text is the message,
its fields are exactly Pod-Name and Deployed-Image-Tag, and it has no field titled
Namespace, Message, Object, Name, Reason or Component: `send_message` does not use
`general_attachment`. -/
theorem send_message_custom_view_only (e : Event) (color : GoString) :
    (send_message_attachment e color).Fallback = e.Message ∧
    (send_message_attachment e color).Fields = (custom_deploy_attachment e).Fields ∧
    (send_message_attachment e color).Fields =
      [ { Title := "Pod-Name".toList, Value := e.Metadata.Name, Short := false },
        { Title := "Deployed-Image-Tag".toList,
          Value := TrimPrefix e.Message "Successfully pulled image ".toList,
          Short := false } ] ∧
    (send_message_attachment e color).fieldValue "Namespace".toList = none ∧
    (send_message_attachment e color).fieldValue "Message".toList = none ∧
    (send_message_attachment e color).fieldValue "Object".toList = none ∧
    (send_message_attachment e color).fieldValue "Name".toList = none ∧
    (send_message_attachment e color).fieldValue "Reason".toList = none ∧
    (send_message_attachment e color).fieldValue "Component".toList = none := by
  have hF : (send_message_attachment e color).Fields = (custom_deploy_attachment e).Fields := by
    unfold send_message_attachment
    split_ifs <;> rfl
  have hB : (send_message_attachment e color).Fallback = e.Message := by
    unfold send_message_attachment
    split_ifs <;> rfl
  refine ⟨hB, hF, hF, ?_, ?_, ?_, ?_, ?_, ?_⟩ <;>
  · unfold Attachment.fieldValue
    rw [hF]
    rfl

/-- C12 as stated fails: for a pod event delivered with the colour "good", the
attachment of `send_message` has the two custom deployment fields and none of the six
general fields, although `general_attachment` has them all. -/
theorem composite_payload_counterexample :
    (send_message_attachment
        (sampleEvent "web-7f8" "Successfully assigned" "Successfully pulled image nginx:1.2" 0 1)
        "good".toList).Fields.map (fun f => f.Title) =
      ["Pod-Name".toList, "Deployed-Image-Tag".toList] ∧
    ¬ (∀ title ∈ ["Namespace".toList, "Message".toList, "Object".toList, "Name".toList,
          "Reason".toList, "Component".toList],
        ∃ f ∈ (send_message_attachment
            (sampleEvent "web-7f8" "Successfully assigned"
              "Successfully pulled image nginx:1.2" 0 1) "good".toList).Fields,
          f.Title = title) ∧
    (∀ title ∈ ["Namespace".toList, "Message".toList, "Object".toList, "Name".toList,
          "Reason".toList, "Component".toList],
        ¬ ∃ f ∈ (send_message_attachment
            (sampleEvent "web-7f8" "Successfully assigned"
              "Successfully pulled image nginx:1.2" 0 1) "good".toList).Fields,
          f.Title = title) ∧
    (∀ title ∈ ["Namespace".toList, "Message".toList, "Object".toList, "Name".toList,
          "Reason".toList, "Component".toList],
        ∃ f ∈ (general_attachment
            (sampleEvent "web-7f8" "Successfully assigned"
              "Successfully pulled image nginx:1.2" 0 1)).Fields,
          f.Title = title) := by
  refine ⟨by decide, by decide, by decide, by decide⟩

/-- C13: the colour hint of the classifier is "good" exactly when the reason equals the
target and the name check passes (`filter_event` is true), and empty otherwise; it is the
same for every count, age and message, so an event suppressed by the repeat or staleness
gate still carries "good" when it passed the reason and name checks. -/
theorem colour_hint (env : Env) (now : Int) (e : Event) :
    ((main_decision env now e).2 = "good".toList ↔
      filter_event env e.Metadata.Name e.Reason = true) ∧
    ((main_decision env now e).2 = "good".toList ↔
      e.Reason = env.EVENT_REASON ∧
        (env.POD_NAMES = [] ∨ ∃ name ∈ Split env.POD_NAMES, name <:+: e.Metadata.Name)) ∧
    ((main_decision env now e).2 = "good".toList ∨ (main_decision env now e).2 = []) ∧
    (∀ (now2 : Int) (e2 : Event), e2.Metadata.Name = e.Metadata.Name → e2.Reason = e.Reason →
      (main_decision env now2 e2).2 = (main_decision env now e).2) ∧
    (filter_event env e.Metadata.Name e.Reason = true →
      (e.Count > 1 ∨ (diffMinutes now e > 1 ∧ ¬ ("killed".toList <:+: e.Message))) →
      (main_decision env now e).1 = false ∧ (main_decision env now e).2 = "good".toList) := by
  have h1 : (main_decision env now e).2 = "good".toList ↔
      filter_event env e.Metadata.Name e.Reason = true := by
    rw [main_decision_snd]
    by_cases hf : filter_event env e.Metadata.Name e.Reason = true
    · simp [hf]
    · rw [if_neg hf]
      exact ⟨fun h => absurd h (by decide), fun h => absurd h hf⟩
  refine ⟨h1, ?_, ?_, ?_, ?_⟩
  · rw [h1, filter_event_iff]
  · rw [main_decision_snd]
    by_cases hf : filter_event env e.Metadata.Name e.Reason = true
    · left; rw [if_pos hf]
    · right; rw [if_neg hf]; rfl
  · intro now2 e2 hn hr
    rw [main_decision_snd, main_decision_snd, hn, hr]
  · intro hf hs
    refine ⟨?_, h1.mpr hf⟩
    rw [← Bool.not_eq_true, send_gates_iff]
    rintro ⟨_, hc, ha⟩
    rcases hs with hs | ⟨hs1, hs2⟩
    · exact hc hs
    · exact ha ⟨hs1, fun hk => hs2 ((Contains_iff _ _).mp hk)⟩

/-- Witness of C13: under the allowlist "web-", the event "web-7f8" with matching reason
carries "good" although it is suppressed by its count 3, and also when suppressed by its
age of 5 minutes; the event "db-7f8" carries the empty hint. -/
theorem colour_hint_witness :
    main_decision (sampleEnv "web-") 0
      (sampleEvent "web-7f8" "Successfully assigned" "Started container" 0 3) =
      (false, "good".toList) ∧
    main_decision (sampleEnv "web-") (5 * Minute)
      (sampleEvent "web-7f8" "Successfully assigned" "Started container" 0 1) =
      (false, "good".toList) ∧
    (main_decision (sampleEnv "web-") 0
      (sampleEvent "db-7f8" "Successfully assigned" "Started container" 0 1)).2 = [] :=
  ⟨Prod.ext
      ((colour_hint (sampleEnv "web-") 0
        (sampleEvent "web-7f8" "Successfully assigned" "Started container" 0 3)).2.2.2.2
        (by decide) (Or.inl (by decide))).1
      ((colour_hint (sampleEnv "web-") 0
        (sampleEvent "web-7f8" "Successfully assigned" "Started container" 0 3)).2.2.2.2
        (by decide) (Or.inl (by decide))).2,
    Prod.ext
      ((colour_hint (sampleEnv "web-") (5 * Minute)
        (sampleEvent "web-7f8" "Successfully assigned" "Started container" 0 1)).2.2.2.2
        (by decide) (Or.inr ⟨diffMinutes_gt_one_of_le _ _ (by decide), by decide⟩)).1
      ((colour_hint (sampleEnv "web-") (5 * Minute)
        (sampleEvent "web-7f8" "Successfully assigned" "Started container" 0 1)).2.2.2.2
        (by decide) (Or.inr ⟨diffMinutes_gt_one_of_le _ _ (by decide), by decide⟩)).2,
    by decide⟩

/-- C14: `custom_deploy_attachment` returns a payload whose fallback text is the event's
message verbatim, also when the message starts with "Successfully pulled image ", and
whose fields are exactly Pod-Name (the event's name) and Deployed-Image-Tag (the stripped
tag), in this order, both with the short flag false. -/
theorem custom_deploy_attachment_shape (e : Event) :
    (custom_deploy_attachment e).Fallback = e.Message ∧
    (custom_deploy_attachment e).Fields =
      [ { Title := "Pod-Name".toList, Value := e.Metadata.Name, Short := false },
        { Title := "Deployed-Image-Tag".toList,
          Value := TrimPrefix e.Message "Successfully pulled image ".toList,
          Short := false } ] ∧
    (∀ s : GoString,
      (custom_deploy_attachment
          { e with Message := "Successfully pulled image ".toList ++ s }).Fallback =
        "Successfully pulled image ".toList ++ s ∧
      (custom_deploy_attachment
          { e with Message := "Successfully pulled image ".toList ++ s }).Fields =
        [ { Title := "Pod-Name".toList, Value := e.Metadata.Name, Short := false },
          { Title := "Deployed-Image-Tag".toList, Value := s, Short := false } ]) := by
  refine ⟨rfl, rfl, fun s => ⟨rfl, ?_⟩⟩
  show [_, _] = [_, _]
  rw [TrimPrefix_append]

/-- C15: `general_attachment` returns a payload whose fallback text is the event's message
and whose fields are exactly Namespace, Message, Object, Name, Reason and Component, in
this order, with the values of metadata.namespace, message, involvedObject.kind,
metadata.name, reason and source.component, all short except Message. -/
theorem general_attachment_shape (e : Event) :
    (general_attachment e).Fallback = e.Message ∧
    (general_attachment e).Fields =
      [ { Title := "Namespace".toList, Value := e.Metadata.Namespace, Short := true },
        { Title := "Message".toList, Value := e.Message, Short := false },
        { Title := "Object".toList, Value := e.InvolvedObject.Kind, Short := true },
        { Title := "Name".toList, Value := e.Metadata.Name, Short := true },
        { Title := "Reason".toList, Value := e.Reason, Short := true },
        { Title := "Component".toList, Value := e.Source.Component, Short := true } ] ∧
    (general_attachment e).Fields.length = 6 :=
  ⟨rfl, rfl, rfl⟩

/-! ## Behaviour of the driver that follows from the code alone -/

/-- C16: whenever the driver delivers a notification, the colour it passes to
`send_message` is "good" (in particular not empty), so the posted attachment has the
colour "good" whatever the event's reason is: never "danger", never unset. -/
theorem delivered_colour_always_good (env : Env) (now : Int) (e : Event) :
    ((main_decision env now e).1 = true →
      (main_decision env now e).2 = "good".toList ∧ (main_decision env now e).2 ≠ []) ∧
    (∀ a : Attachment, main_delivery env now e = some a →
      a.Color = "good".toList ∧ a.Color ≠ "danger".toList ∧ a.Color ≠ []) ∧
    (main_delivery env now e = none ↔ (main_decision env now e).1 = false) := by
  refine ⟨?_, ?_, ?_⟩
  · intro h
    rw [send_colour_good env now e h]
    exact ⟨rfl, by decide⟩
  · intro a ha
    rw [main_delivery_eq] at ha
    by_cases h : (main_decision env now e).1 = true
    · rw [if_pos h, send_colour_good env now e h,
        send_message_attachment_hint e _ (by decide)] at ha
      have hc : a.Color = "good".toList := by
        rw [← Option.some.inj ha]
      rw [hc]
      exact ⟨rfl, by decide, by decide⟩
    · rw [if_neg h] at ha
      exact absurd ha (by simp)
  · rw [main_delivery_eq]
    by_cases h : (main_decision env now e).1 = true
    · rw [if_pos h]
      simp [h]
    · rw [if_neg h]
      simp [h]

/-- Witness of C16: with the target reason "FailedScheduling" (no allowlist) an event with
that reason is delivered with the colour "good", although its reason starts with "Fail";
so is an event with the target reason "Killing". -/
theorem delivered_colour_always_good_witness :
    (main_delivery { EVENT_REASON := "FailedScheduling".toList, POD_NAMES := [] } 0
      (sampleEvent "web-7f8" "FailedScheduling" "0/3 nodes available" 0 1)).map
        (fun a => a.Color) = some "good".toList ∧
    (main_delivery { EVENT_REASON := "Killing".toList, POD_NAMES := [] } 0
      (sampleEvent "web-7f8" "Killing" "pod killed" 0 1)).map
        (fun a => a.Color) = some "good".toList ∧
    (send_message_attachment
      (sampleEvent "web-7f8" "FailedScheduling" "0/3 nodes available" 0 1) []).Color =
        "danger".toList :=
  ⟨(congrArg (Option.map (fun a => a.Color))
      (main_delivery_of_send { EVENT_REASON := "FailedScheduling".toList, POD_NAMES := [] } 0
        (sampleEvent "web-7f8" "FailedScheduling" "0/3 nodes available" 0 1)
        ((congrArg Prod.fst (main_decision_eq _ _ _)).trans (by decide)))).trans
      (congrArg some
        ((delivered_colour_always_good
          { EVENT_REASON := "FailedScheduling".toList, POD_NAMES := [] } 0
          (sampleEvent "web-7f8" "FailedScheduling" "0/3 nodes available" 0 1)).2.1 _
          (main_delivery_of_send _ _ _
            ((congrArg Prod.fst (main_decision_eq _ _ _)).trans (by decide)))).1),
    (congrArg (Option.map (fun a => a.Color))
      (main_delivery_of_send { EVENT_REASON := "Killing".toList, POD_NAMES := [] } 0
        (sampleEvent "web-7f8" "Killing" "pod killed" 0 1)
        ((congrArg Prod.fst (main_decision_eq _ _ _)).trans (by decide)))).trans
      (congrArg some
        ((delivered_colour_always_good { EVENT_REASON := "Killing".toList, POD_NAMES := [] } 0
          (sampleEvent "web-7f8" "Killing" "pod killed" 0 1)).2.1 _
          (main_delivery_of_send _ _ _
            ((congrArg Prod.fst (main_decision_eq _ _ _)).trans (by decide)))).1),
    by decide⟩

/-- C17: the patterns are the pieces of the allowlist between its commas, and a leading, a
trailing or a doubled comma gives an empty piece; when a piece is empty, `filter_event`
does what it does with no allowlist at all: it returns true for every name when the
reason equals the target reason. -/
theorem empty_pattern_allows_every_name (env : Env) :
    (∀ s : GoString, [] ∈ Split (',' :: s)) ∧
    (∀ s : GoString, [] ∈ Split (s ++ [','])) ∧
    (∀ a b : GoString, [] ∈ Split (a ++ ',' :: ',' :: b)) ∧
    ([] ∈ Split env.POD_NAMES →
      ∀ metadataName eventReason : GoString,
        (eventReason = env.EVENT_REASON →
          filter_event env metadataName eventReason = true) ∧
        filter_event env metadataName eventReason =
          filter_event { env with POD_NAMES := [] } metadataName eventReason) := by
  have hlead : ∀ s : GoString, [] ∈ Split (',' :: s) := by
    intro s
    have := SplitByte_append_sep ',' [] s
    unfold Split
    rw [List.nil_append] at this
    rw [this]
    simp [SplitByte]
  refine ⟨hlead, ?_, ?_, ?_⟩
  · intro s
    unfold Split
    rw [SplitByte_append_sep]
    simp [SplitByte]
  · intro a b
    unfold Split
    rw [SplitByte_append_sep]
    exact List.mem_append_right _ (hlead b)
  · intro he metadataName eventReason
    have ht : eventReason = env.EVENT_REASON →
        filter_event env metadataName eventReason = true := fun hr =>
      (filter_event_iff env metadataName eventReason).mpr
        ⟨hr, Or.inr ⟨[], he, List.nil_infix⟩⟩
    refine ⟨ht, ?_⟩
    by_cases hr : eventReason = env.EVENT_REASON
    · rw [ht hr]
      exact ((filter_event_iff { env with POD_NAMES := [] } metadataName eventReason).mpr
        ⟨hr, Or.inl rfl⟩).symm
    · have h1 : ¬ (filter_event env metadataName eventReason = true) :=
        fun h => hr ((filter_event_iff _ _ _).mp h).1
      have h2 : ¬ (filter_event { env with POD_NAMES := [] } metadataName eventReason = true) :=
        fun h => hr ((filter_event_iff _ _ _).mp h).1
      rw [Bool.not_eq_true] at h1 h2
      rw [h1, h2]

/-- Witness of C17: the allowlists "web-," and "," split into ["web-", ""] and ["", ""];
under both the name "db-7f8" passes `filter_event`, which the allowlist "web-" rejects. -/
theorem empty_pattern_allows_every_name_witness :
    Split "web-,".toList = ["web-".toList, []] ∧
    Split ",".toList = [[], []] ∧
    filter_event (sampleEnv "web-,") "db-7f8".toList "Successfully assigned".toList = true ∧
    filter_event (sampleEnv ",") "db-7f8".toList "Successfully assigned".toList = true ∧
    filter_event (sampleEnv "web-") "db-7f8".toList "Successfully assigned".toList = false :=
  ⟨by decide, by decide,
    ((empty_pattern_allows_every_name (sampleEnv "web-,")).2.2.2 (by decide)
      "db-7f8".toList "Successfully assigned".toList).1 rfl,
    ((empty_pattern_allows_every_name (sampleEnv ",")).2.2.2 (by decide)
      "db-7f8".toList "Successfully assigned".toList).1 rfl,
    by decide⟩

/-- C18: for an event whose lastTimestamp is later than the current time, the whole-minute
age is not greater than 1 (it is at most 0), so the staleness gate does not suppress it:
with matching reason, passing name check and count at most 1 it is notified, whatever its
message is. -/
theorem future_event_not_stale (env : Env) (now : Int) (e : Event)
    (hf : now < e.LastTimestamp) :
    diffMinutes now e ≤ 0 ∧ ¬ (diffMinutes now e > 1) ∧
    (e.Reason = env.EVENT_REASON →
      (env.POD_NAMES = [] ∨ ∃ name ∈ Split env.POD_NAMES, name <:+: e.Metadata.Name) →
      e.Count ≤ 1 → (main_decision env now e).1 = true) := by
  have h0 : diffMinutes now e ≤ 0 := diffMinutes_nonpos now e hf.le
  refine ⟨h0, by omega, ?_⟩
  intro hr hn hc
  rw [send_gates_iff]
  exact ⟨(filter_event_iff _ _ _).mpr ⟨hr, hn⟩, by omega, fun hs => absurd hs.1 (by omega)⟩

/-- Witness of C18: an event dated one hour after the current time, with matching reason,
the name "web-7f8" under the allowlist "web-", count 1 and the message "Started
container", has age -60 and is notified. -/
theorem future_event_not_stale_witness :
    diffMinutes 0
      (sampleEvent "web-7f8" "Successfully assigned" "Started container" (60 * Minute) 1)
      = -60 ∧
    ¬ ("killed".toList <:+: "Started container".toList) ∧
    (main_decision (sampleEnv "web-") 0
      (sampleEvent "web-7f8" "Successfully assigned" "Started container" (60 * Minute) 1)).1
      = true :=
  ⟨(diffMinutes_of_lt _ _ (by decide) (by decide)).trans (by decide), by decide,
    (future_event_not_stale (sampleEnv "web-") 0
      (sampleEvent "web-7f8" "Successfully assigned" "Started container" (60 * Minute) 1)
      (by decide)).2.2 rfl (Or.inr ⟨"web-".toList, by decide, by decide⟩) (by decide)⟩

end Slack8s
